import Mathlib

/-!
# Verification development for `src/perfmon.cc`

Shallow embedding of the three statistic variables of `perfmon.cc`
(`perfmon_counter_t`, `perfmon_sampler_t`, `perfmon_function_t`) and of their
`begin_stats` / `visit_stats` / `end_stats` phases.

Conventions of the embedding:

* `get_thread_id()` is the explicit argument `thread`, `get_num_threads()` the
  explicit argument `n`, `get_ticks()` the explicit argument `now`.
* A C array indexed by the thread number (`values[MAX_THREADS]`, the `new T[n]`
  of `begin_stats`) is a function `Nat → T`; an assignment to one slot is
  `Function.update`.
* `int64_t` is `Int` reduced by `wrap_int64` after every addition, `uint64_t`
  is `Nat` reduced `% 2 ^ 64` after every addition.
* `perfmon_stats_t` (a `std::map<std::string, std::string>`) is a lookup
  function; `(*dest)[k] = v` is `perfmon_stats_t.assign`.
-/

namespace Perfmon

/-! ## The output map -/

/-- The map `perfmon_stats_t` from keys to formatted values, as a lookup function. -/
abbrev perfmon_stats_t := String → Option String

/-- The statement `(*dest)[k] = v`: insert or overwrite the entry under `k`. -/
def perfmon_stats_t.assign (dest : perfmon_stats_t) (k v : String) : perfmon_stats_t :=
  fun k' => if k' = k then some v else dest k'

/-- The map with no entry. -/
def perfmon_stats_t.empty : perfmon_stats_t := fun _ => none

/-! ## `perfmon_counter_t` -/

/-- Reduction of an integer to the range of `int64_t` (two's complement). -/
def wrap_int64 (x : Int) : Int := (x + 2 ^ 63) % 2 ^ 64 - 2 ^ 63

/-- Modelled from the spec: `format` is declared in `utils.hpp`, which is not part of
the sources at hand; the spec says integers are "formatted as plain decimal". -/
def format_int64 (v : Int) : String := toString v

/-- The counter: its name and the array `values[MAX_THREADS]` of `int64_t` slots. -/
structure perfmon_counter_t where
  name : String
  values : Nat → Int

/-- The constructor's loop `for (int i = 0; i < MAX_THREADS; i++) values[i].value = 0;`
run for `k` iterations on the memory `mem` of the array. -/
def perfmon_counter_t.zero_loop (mem : Nat → Int) : Nat → (Nat → Int)
  | 0 => mem
  | i + 1 => Function.update (perfmon_counter_t.zero_loop mem i) i 0

/-- The constructor `perfmon_counter_t::perfmon_counter_t(name)`; `mem` is what the
memory of the array held before and `MAX_THREADS` the constant of that name
(declared in a header that is not part of the sources at hand). -/
def perfmon_counter_t.new (MAX_THREADS : Nat) (mem : Nat → Int) (name : String) :
    perfmon_counter_t :=
  { name := name, values := perfmon_counter_t.zero_loop mem MAX_THREADS }

/-- The accessor `perfmon_counter_t::get()` read on context `thread`. -/
def perfmon_counter_t.get (p : perfmon_counter_t) (thread : Nat) : Int :=
  p.values thread

/-- A write `get() = v` through the reference returned by `get()` on context `thread`. -/
def perfmon_counter_t.set (p : perfmon_counter_t) (thread : Nat) (v : Int) :
    perfmon_counter_t :=
  { p with values := Function.update p.values thread v }

/-- The method `perfmon_counter_t::begin_stats`: a new array whose slots are not
initialised; `uninit` is whatever the fresh memory holds. -/
def perfmon_counter_t.begin_stats (_p : perfmon_counter_t) (uninit : Nat → Int) : Nat → Int :=
  uninit

/-- The method `perfmon_counter_t::visit_stats` run on context `thread`. -/
def perfmon_counter_t.visit_stats (p : perfmon_counter_t) (data : Nat → Int) (thread : Nat) :
    Nat → Int :=
  Function.update data thread (p.get thread)

/-- The loop `for (i < n) value += data[i].value` of `end_stats` after `i` iterations,
starting from `value = 0`, in `int64_t` arithmetic. -/
def perfmon_counter_t.sum_loop (data : Nat → Int) : Nat → Int
  | 0 => 0
  | i + 1 => wrap_int64 (perfmon_counter_t.sum_loop data i + data i)

/-- The method `perfmon_counter_t::end_stats` with `n = get_num_threads()`. -/
def perfmon_counter_t.end_stats (p : perfmon_counter_t) (n : Nat) (data : Nat → Int)
    (dest : perfmon_stats_t) : perfmon_stats_t :=
  dest.assign p.name (format_int64 (perfmon_counter_t.sum_loop data n))

/-- The visit phase of one snapshot for the counter: `visit_stats` runs on the contexts
in the order `order`, each call on the state left by the one before. -/
def perfmon_counter_t.visit_all (p : perfmon_counter_t) (data : Nat → Int) (order : List Nat) :
    Nat → Int :=
  order.foldl (fun d thread => p.visit_stats d thread) data

/-- A snapshot of the counter alone: `begin_stats`, the visits, `end_stats`. -/
def perfmon_counter_t.snapshot (p : perfmon_counter_t) (n : Nat) (uninit : Nat → Int)
    (order : List Nat) (dest : perfmon_stats_t) : perfmon_stats_t :=
  p.end_stats n (p.visit_all (p.begin_stats uninit) order) dest

/-! ## `perfmon_sampler_t` -/

/-- Modelled from the spec: `ticks_t` is declared in a header that is not part of the
sources at hand; the spec calls a tick "the time unit used by the Sampler's window and
timestamps" and fixes no width, so ticks are natural numbers. -/
abbrev ticks_t := Nat

/-- Modelled from the spec: `perfmon_sampler_t::value_t` is declared in `perfmon.hpp`,
which is not part of the sources at hand; the spec treats the values as real numbers whose
sum, quotient, minimum and maximum are taken, so values are rationals (exact arithmetic). -/
abbrev value_t := ℚ

/-- The record `perfmon_sampler_t::sample_t(value, timestamp)`. -/
structure sample_t where
  value : value_t
  timestamp : ticks_t
  deriving DecidableEq

/-- The sampler: name, window length, rate flag and the array `values[MAX_THREADS]` of
queues (`std::deque<sample_t>`, front of the queue = head of the list). -/
structure perfmon_sampler_t where
  name : String
  length : ticks_t
  include_rate : Bool
  values : Nat → List sample_t

/-- The constructor `perfmon_sampler_t::perfmon_sampler_t`: every queue starts empty. -/
def perfmon_sampler_t.new (name : String) (length : ticks_t) (include_rate : Bool) :
    perfmon_sampler_t :=
  { name := name, length := length, include_rate := include_rate, values := fun _ => [] }

/-- The loop `while (!queue.empty() && queue.front().timestamp + length < now) queue.pop_front();`
of `expire`. -/
def perfmon_sampler_t.expire_loop (length now : ticks_t) : List sample_t → List sample_t
  | [] => []
  | s :: rest =>
    if s.timestamp + length < now then perfmon_sampler_t.expire_loop length now rest
    else s :: rest

/-- The method `perfmon_sampler_t::expire` run on context `thread` when the clock reads `now`. -/
def perfmon_sampler_t.expire (p : perfmon_sampler_t) (thread : Nat) (now : ticks_t) :
    perfmon_sampler_t :=
  let queue := perfmon_sampler_t.expire_loop p.length now (p.values thread)
  { p with values := Function.update p.values thread queue }

/-- The method `perfmon_sampler_t::record(v)` run on context `thread`; `now` is the clock
reading of `expire()` and `now2` the reading of the second `get_ticks()` call. -/
def perfmon_sampler_t.record (p : perfmon_sampler_t) (thread : Nat) (now now2 : ticks_t)
    (v : value_t) : perfmon_sampler_t :=
  let p1 := p.expire thread now
  let queue := p1.values thread ++ [{ value := v, timestamp := now2 }]
  { p1 with values := Function.update p1.values thread queue }

/-- The record `perfmon_sampler_step_t`: four arrays indexed by the thread number;
`counts` holds `uint64_t`. -/
structure perfmon_sampler_step_t where
  counts : Nat → Nat
  values : Nat → value_t
  mins : Nat → value_t
  maxes : Nat → value_t

/-- The function `std::min(a, b)`: `b` if `b < a`, else `a`. -/
def std_min (a b : value_t) : value_t := if b < a then b else a

/-- The function `std::max(a, b)`: `b` if `a < b`, else `a`. -/
def std_max (a b : value_t) : value_t := if a < b then b else a

/-- The method `perfmon_sampler_t::begin_stats`: a new `perfmon_sampler_step_t` whose
arrays are not initialised; `uninit` is whatever the fresh memory holds. -/
def perfmon_sampler_t.begin_stats (_p : perfmon_sampler_t) (uninit : perfmon_sampler_step_t) :
    perfmon_sampler_step_t :=
  uninit

/-- One iteration of the `for` loop of `perfmon_sampler_t::visit_stats` on the sample `s`. -/
def perfmon_sampler_t.visit_body (thread : Nat) (d : perfmon_sampler_step_t) (s : sample_t) :
    perfmon_sampler_step_t :=
  let d1 : perfmon_sampler_step_t :=
    { d with values := Function.update d.values thread (d.values thread + s.value) }
  let d2 : perfmon_sampler_step_t :=
    if d1.counts thread > 0 then
      { d1 with
        mins := Function.update d1.mins thread (std_min (d1.mins thread) s.value)
        maxes := Function.update d1.maxes thread (std_max (d1.maxes thread) s.value) }
    else
      { d1 with
        mins := Function.update d1.mins thread s.value
        maxes := Function.update d1.maxes thread s.value }
  { d2 with counts := Function.update d2.counts thread ((d2.counts thread + 1) % 2 ^ 64) }

/-- The method `perfmon_sampler_t::visit_stats` run on context `thread` when the clock
reads `now`; it returns the sampler (whose queue `expire` has shortened) and the state. -/
def perfmon_sampler_t.visit_stats (p : perfmon_sampler_t) (d : perfmon_sampler_step_t)
    (thread : Nat) (now : ticks_t) : perfmon_sampler_t × perfmon_sampler_step_t :=
  let p1 := p.expire thread now
  let d1 : perfmon_sampler_step_t := { d with values := Function.update d.values thread 0 }
  let d2 : perfmon_sampler_step_t := { d1 with counts := Function.update d1.counts thread 0 }
  (p1, (p1.values thread).foldl (perfmon_sampler_t.visit_body thread) d2)

/-- The local variables `value`, `count`, `min`, `max`, `have_any` of
`perfmon_sampler_t::end_stats`. -/
structure perfmon_sampler_merge_t where
  value : value_t
  count : Nat
  min : value_t
  max : value_t
  have_any : Bool

/-- One iteration (index `i`) of the `for` loop of `perfmon_sampler_t::end_stats`. -/
def perfmon_sampler_t.end_stats_body (d : perfmon_sampler_step_t) (m : perfmon_sampler_merge_t)
    (i : Nat) : perfmon_sampler_merge_t :=
  let m1 : perfmon_sampler_merge_t :=
    { m with value := m.value + d.values i, count := (m.count + d.counts i) % 2 ^ 64 }
  if d.counts i ≠ 0 then
    if m1.have_any then
      { m1 with min := std_min (d.mins i) m1.min, max := std_max (d.maxes i) m1.max }
    else
      { m1 with min := d.mins i, max := d.maxes i, have_any := true }
  else m1

/-- The `for` loop of `perfmon_sampler_t::end_stats` after `i` iterations, from the
initial values `value = 0, count = 0, min = 0, max = 0, have_any = false`. -/
def perfmon_sampler_t.end_stats_loop (d : perfmon_sampler_step_t) : Nat → perfmon_sampler_merge_t
  | 0 => { value := 0, count := 0, min := 0, max := 0, have_any := false }
  | i + 1 => perfmon_sampler_t.end_stats_body d (perfmon_sampler_t.end_stats_loop d i) i

/-- The method `perfmon_sampler_t::end_stats` with `n = get_num_threads()`. The functions
`format` (on `value_t`) and `ticks_to_secs` are declared in headers that are not part of the
sources at hand and are parameters. -/
def perfmon_sampler_t.end_stats (format : value_t → String) (ticks_to_secs : ticks_t → value_t)
    (p : perfmon_sampler_t) (n : Nat) (d : perfmon_sampler_step_t) (dest : perfmon_stats_t) :
    perfmon_stats_t :=
  let m := perfmon_sampler_t.end_stats_loop d n
  let dest1 : perfmon_stats_t :=
    if m.have_any then
      ((dest.assign (p.name ++ "_avg") (format (m.value / (m.count : value_t)))).assign
        (p.name ++ "_min") (format m.min)).assign (p.name ++ "_max") (format m.max)
    else
      ((dest.assign (p.name ++ "_avg") "-").assign (p.name ++ "_min") "-").assign
        (p.name ++ "_max") "-"
  if p.include_rate then
    dest1.assign (p.name ++ "_persec") (format ((m.count : value_t) / ticks_to_secs p.length))
  else dest1

/-- The visit phase of one snapshot for the sampler: `visit_stats` runs on the contexts in
the order `order`; the visit on context `c` reads the clock as `now c`. -/
def perfmon_sampler_t.visit_all (p : perfmon_sampler_t) (d : perfmon_sampler_step_t)
    (now : Nat → ticks_t) (order : List Nat) : perfmon_sampler_t × perfmon_sampler_step_t :=
  order.foldl (fun pd thread => pd.1.visit_stats pd.2 thread (now thread)) (p, d)

/-- A snapshot of the sampler alone: `begin_stats`, the visits, `end_stats`. -/
def perfmon_sampler_t.snapshot (format : value_t → String) (ticks_to_secs : ticks_t → value_t)
    (p : perfmon_sampler_t) (n : Nat) (uninit : perfmon_sampler_step_t) (now : Nat → ticks_t)
    (order : List Nat) (dest : perfmon_stats_t) : perfmon_stats_t :=
  let pd := p.visit_all (p.begin_stats uninit) now order
  perfmon_sampler_t.end_stats format ticks_to_secs pd.1 n pd.2 dest

/-- The samples of context `c` that `expire` leaves in the queue at the time `now c`. -/
def perfmon_sampler_t.unexpired (p : perfmon_sampler_t) (now : Nat → ticks_t) (c : Nat) :
    List sample_t :=
  perfmon_sampler_t.expire_loop p.length (now c) (p.values c)

/-- The values of the samples of the queues `Q 0, …, Q (n - 1)` taken together. -/
def values_upto (Q : Nat → List sample_t) (n : Nat) : List value_t :=
  (List.range n).flatMap (fun c => (Q c).map sample_t.value)

/-- The values of the unexpired samples of the contexts `0, …, n - 1` taken together. -/
def perfmon_sampler_t.unexpired_values (p : perfmon_sampler_t) (now : Nat → ticks_t) (n : Nat) :
    List value_t :=
  values_upto (p.unexpired now) n

/-- A formatter of rationals used to instantiate the parameter `format` on concrete
inputs: numerator, a slash, denominator. -/
def format_fraction (q : value_t) : String := toString q.num ++ "/" ++ toString q.den

/-- A conversion used to instantiate the parameter `ticks_to_secs` on concrete inputs:
one tick is one nanosecond. -/
def ticks_to_secs_ns (t : ticks_t) : value_t := (t : value_t) / 1000000000

/-! ## `perfmon_function_t` -/

/-- A provider `perfmon_function_t::internal_function_t`; `compute_stat` is the text its
virtual method `compute_stat()` returns at visit time. -/
structure internal_function_t where
  compute_stat : String
  deriving DecidableEq

/-- The function statistic: its name and the array `funs[MAX_THREADS]` of provider lists. -/
structure perfmon_function_t where
  name : String
  funs : Nat → List internal_function_t

/-- The constructor `internal_function_t::internal_function_t(p)` run on context `thread`:
the provider is appended to the list of that context. -/
def perfmon_function_t.register (p : perfmon_function_t) (thread : Nat)
    (f : internal_function_t) : perfmon_function_t :=
  let list := p.funs thread ++ [f]
  { p with funs := Function.update p.funs thread list }

/-- The method `perfmon_function_t::begin_stats`: a new empty `std::string`. -/
def perfmon_function_t.begin_stats (_p : perfmon_function_t) : String := ""

/-- The `for` loop of `perfmon_function_t::visit_stats` over the providers of one context. -/
def perfmon_function_t.visit_loop : List internal_function_t → String → String
  | [], string => string
  | f :: rest, string =>
    perfmon_function_t.visit_loop rest
      ((if string.length > 0 then string ++ ", " else string) ++ f.compute_stat)

/-- The method `perfmon_function_t::visit_stats` run on context `thread`. -/
def perfmon_function_t.visit_stats (p : perfmon_function_t) (string : String) (thread : Nat) :
    String :=
  perfmon_function_t.visit_loop (p.funs thread) string

/-- The method `perfmon_function_t::end_stats`. -/
def perfmon_function_t.end_stats (p : perfmon_function_t) (string : String)
    (dest : perfmon_stats_t) : perfmon_stats_t :=
  if string.length ≠ 0 then dest.assign p.name string else dest.assign p.name "N/A"

/-- The visit phase of one snapshot for the function statistic: `visit_stats` runs on the
contexts in the order `order`, every call on the one string of the snapshot. -/
def perfmon_function_t.visit_all (p : perfmon_function_t) (string : String) (order : List Nat) :
    String :=
  order.foldl (fun s thread => p.visit_stats s thread) string

/-- A snapshot of the function statistic alone: `begin_stats`, the visits, `end_stats`. -/
def perfmon_function_t.snapshot (p : perfmon_function_t) (order : List Nat)
    (dest : perfmon_stats_t) : perfmon_stats_t :=
  p.end_stats (p.visit_all p.begin_stats order) dest

/-- The texts of the providers of the contexts of `order`, context after context, within
a context in registration order. -/
def perfmon_function_t.texts (p : perfmon_function_t) (order : List Nat) : List String :=
  order.flatMap (fun c => (p.funs c).map internal_function_t.compute_stat)

/-! ## Specification vocabulary -/

/-- The value `m` is the least of the values `vals`. -/
def is_least_of (vals : List value_t) (m : value_t) : Prop :=
  m ∈ vals ∧ ∀ v ∈ vals, m ≤ v

/-- The value `m` is the greatest of the values `vals`. -/
def is_greatest_of (vals : List value_t) (m : value_t) : Prop :=
  m ∈ vals ∧ ∀ v ∈ vals, v ≤ m

instance (vals : List value_t) (m : value_t) : Decidable (is_least_of vals m) := by
  unfold is_least_of
  infer_instance

instance (vals : List value_t) (m : value_t) : Decidable (is_greatest_of vals m) := by
  unfold is_greatest_of
  infer_instance

/-- The slot of context `c` in the state `d` summarises the queue `q`: it holds the sum
of the values, the number of samples as a `uint64_t` and, when the queue is not empty
(and shorter than `2^64`), the least and the greatest value. -/
def perfmon_sampler_step_t.summarises (d : perfmon_sampler_step_t) (c : Nat)
    (q : List sample_t) : Prop :=
  d.values c = (q.map sample_t.value).sum
    ∧ d.counts c = q.length % 2 ^ 64
    ∧ (q ≠ [] → q.length < 2 ^ 64 →
        is_least_of (q.map sample_t.value) (d.mins c)
          ∧ is_greatest_of (q.map sample_t.value) (d.maxes c))

/-- The states `d` and `e` hold the same entries for context `c`. -/
def perfmon_sampler_step_t.same_slot (d e : perfmon_sampler_step_t) (c : Nat) : Prop :=
  d.values c = e.values c ∧ d.counts c = e.counts c ∧ d.mins c = e.mins c
    ∧ d.maxes c = e.maxes c

/-- The sampler `p` with the queue of context `thread` replaced by `queue`. -/
def perfmon_sampler_t.with_queue (p : perfmon_sampler_t) (thread : Nat)
    (queue : List sample_t) : perfmon_sampler_t :=
  { p with values := Function.update p.values thread queue }

/-- The local variables of `end_stats` after its merge loop, in a snapshot of the sampler. -/
def perfmon_sampler_t.merged (p : perfmon_sampler_t) (n : Nat) (uninit : perfmon_sampler_step_t)
    (now : Nat → ticks_t) (order : List Nat) : perfmon_sampler_merge_t :=
  perfmon_sampler_t.end_stats_loop (p.visit_all (p.begin_stats uninit) now order).2 n

/-- Scenario B of the spec: window 10 s, rate enabled, the values 1, 2, 3 recorded 1 s
apart on context 0 (one tick is one nanosecond). -/
def scenario_b : perfmon_sampler_t :=
  (((perfmon_sampler_t.new "lat" 10000000000 true).record 0 0 0 1).record 0 1000000000
    1000000000 2).record 0 2000000000 2000000000 3

/-- Scenario C of the spec: window 10 s, rate enabled, no sample. -/
def scenario_c : perfmon_sampler_t := perfmon_sampler_t.new "lat" 10000000000 true

/-- Some content of a `perfmon_sampler_step_t` that was not initialised. -/
def scenario_uninit : perfmon_sampler_step_t :=
  { counts := fun _ => 7, values := fun _ => 7, mins := fun _ => 7, maxes := fun _ => 7 }

/-- Scenario D of the spec: a function statistic with no provider on any context. -/
def scenario_d : perfmon_function_t := { name := "status", funs := fun _ => [] }

/-- Scenario E of the spec: one provider on each of the contexts 0 and 1, both computing
the text "ok". -/
def scenario_e : perfmon_function_t :=
  (scenario_d.register 0 { compute_stat := "ok" }).register 1 { compute_stat := "ok" }

/-- A function statistic with one provider on context 0 computing "a" and one provider on
context 1 computing "b". -/
def scenario_ab : perfmon_function_t :=
  (scenario_d.register 0 { compute_stat := "a" }).register 1 { compute_stat := "b" }

/-- A function statistic with one provider on context 0, which computes the empty text. -/
def scenario_silent : perfmon_function_t := scenario_d.register 0 { compute_stat := "" }

/-- A function statistic with two providers on context 0: the first computes the empty
text, the second the text "a". -/
def scenario_silent_a : perfmon_function_t :=
  (scenario_d.register 0 { compute_stat := "" }).register 0 { compute_stat := "a" }

/-- A function statistic with three providers on context 0 computing "a", "" and "b". -/
def scenario_a_silent_b : perfmon_function_t :=
  ((scenario_d.register 0 { compute_stat := "a" }).register 0 { compute_stat := "" }).register 0
    { compute_stat := "b" }

/-- The order of steps that the spec gives for `record(value)`: first append
`(value, now)` at the back of the calling context's queue, then evict the expired entries
from the front of that queue. To be compared with `perfmon_sampler_t.record`. -/
def perfmon_sampler_t.record_spec (p : perfmon_sampler_t) (thread : Nat) (now : ticks_t)
    (v : value_t) : perfmon_sampler_t :=
  let queue := p.values thread ++ [{ value := v, timestamp := now }]
  (p.with_queue thread queue).expire thread now

/-- An operation on a sampler together with the clock readings it takes: `record`
(two readings), `expire` and `visit_stats` (one reading each). -/
inductive sampler_op where
  | record (thread : Nat) (now now2 : ticks_t) (v : value_t)
  | expire (thread : Nat) (now : ticks_t)
  | visit_stats (d : perfmon_sampler_step_t) (thread : Nat) (now : ticks_t)

/-- The sampler after the operation `op`. -/
def sampler_op.apply (p : perfmon_sampler_t) : sampler_op → perfmon_sampler_t
  | sampler_op.record thread now now2 v => p.record thread now now2 v
  | sampler_op.expire thread now => p.expire thread now
  | sampler_op.visit_stats d thread now => (p.visit_stats d thread now).1

/-- The readings of `get_ticks()` that the operation takes, in the order it takes them. -/
def sampler_op.ticks : sampler_op → List ticks_t
  | sampler_op.record _ now now2 _ => [now, now2]
  | sampler_op.expire _ now => [now]
  | sampler_op.visit_stats _ _ now => [now]

/-- The sampler after the operations `ops`, run one after the other. -/
def perfmon_sampler_t.run (p : perfmon_sampler_t) (ops : List sampler_op) : perfmon_sampler_t :=
  ops.foldl sampler_op.apply p

/-- The clock `get_ticks` never decreases over the operations `ops`: the readings, in the
order they are taken, are non-decreasing. -/
def clock_never_decreases (ops : List sampler_op) : Prop :=
  (ops.flatMap sampler_op.ticks).Pairwise (fun a b => a ≤ b)

/-- The timestamps of the queue are non-decreasing from front to back. -/
def timestamps_sorted (queue : List sample_t) : Prop :=
  queue.Pairwise (fun a b => a.timestamp ≤ b.timestamp)

/-- Another content of a `perfmon_sampler_step_t` that was not initialised. -/
def scenario_uninit2 : perfmon_sampler_step_t :=
  { counts := fun _ => 9, values := fun _ => 9, mins := fun _ => 9, maxes := fun _ => 9 }

/-- A run of a sampler with window 10: two records on context 0, a record on context 1,
an `expire` and a `visit_stats` on context 0, with the clock readings 0, 0, 5, 6, 8, 8,
15, 16. -/
def scenario_ops : List sampler_op :=
  [sampler_op.record 0 0 0 1, sampler_op.record 0 5 6 2, sampler_op.record 1 8 8 3,
    sampler_op.expire 0 15, sampler_op.visit_stats scenario_uninit 0 16]

/-- A snapshot of the function statistic during which the provider `f` is registered on
context `c`: `begin_stats`, the visits on the contexts `before`, the registration, the
visits on the contexts `after`, `end_stats`. -/
def perfmon_function_t.snapshot_with_register (p : perfmon_function_t) (before : List Nat)
    (c : Nat) (f : internal_function_t) (after : List Nat) (dest : perfmon_stats_t) :
    perfmon_stats_t :=
  let string := p.visit_all p.begin_stats before
  let p1 := p.register c f
  p1.end_stats (p1.visit_all string after) dest

/-! ## `perfmon_get_stats` -/

/-- An object of the abstract class `perfmon_t`: one of its three subclasses in
`perfmon.cc`. A call of a virtual method dispatches on the constructor. -/
inductive perfmon_t where
  | counter (p : perfmon_counter_t)
  | sampler (p : perfmon_sampler_t)
  | function (p : perfmon_function_t)

/-- What a `void*` returned by `begin_stats` points to: the state of a counter, of a
sampler or of a function statistic. -/
inductive perfmon_data where
  | counter (data : Nat → Int)
  | sampler (d : perfmon_sampler_step_t)
  | function (string : String)

/-- What `perfmon_get_stats` takes from outside `perfmon.cc`: `get_num_threads()`, the
functions `format` and `ticks_to_secs`, the reading `now thread i` of `get_ticks()` by the
visit on context `thread` of the variable at position `i` of the list, and the content
`uninit_counter i`, `uninit_sampler i` of the memory that `begin_stats` of the variable at
position `i` allocates. -/
structure perfmon_env where
  num_threads : Nat
  format : value_t → String
  ticks_to_secs : ticks_t → value_t
  now : Nat → Nat → ticks_t
  uninit_counter : Nat → Nat → Int
  uninit_sampler : Nat → perfmon_sampler_step_t

/-- The virtual method `perfmon_t::begin_stats` of the variable at position `i`. -/
def perfmon_t.begin_stats (env : perfmon_env) (i : Nat) : perfmon_t → perfmon_data
  | perfmon_t.counter p => perfmon_data.counter (p.begin_stats (env.uninit_counter i))
  | perfmon_t.sampler p => perfmon_data.sampler (p.begin_stats (env.uninit_sampler i))
  | perfmon_t.function p => perfmon_data.function p.begin_stats

/-- The virtual method `perfmon_t::visit_stats(void *data)` of the variable at position `i`
run on context `thread`; it returns the variable and the state after the call. The method
casts `data` to the state of its own class: on the state of another class the behaviour is
undefined, which is `none`. -/
def perfmon_t.visit_stats (env : perfmon_env) (i thread : Nat) :
    perfmon_t → perfmon_data → Option (perfmon_t × perfmon_data)
  | perfmon_t.counter p, perfmon_data.counter data =>
    some (perfmon_t.counter p, perfmon_data.counter (p.visit_stats data thread))
  | perfmon_t.sampler p, perfmon_data.sampler d =>
    some (perfmon_t.sampler (p.visit_stats d thread (env.now thread i)).1,
      perfmon_data.sampler (p.visit_stats d thread (env.now thread i)).2)
  | perfmon_t.function p, perfmon_data.function string =>
    some (perfmon_t.function p, perfmon_data.function (p.visit_stats string thread))
  | _, _ => none

/-- The virtual method `perfmon_t::end_stats(void *data, perfmon_stats_t *dest)`; `none`
when `data` points to the state of another class (undefined behaviour). -/
def perfmon_t.end_stats (env : perfmon_env) :
    perfmon_t → perfmon_data → perfmon_stats_t → Option perfmon_stats_t
  | perfmon_t.counter p, perfmon_data.counter data, dest =>
    some (p.end_stats env.num_threads data dest)
  | perfmon_t.sampler p, perfmon_data.sampler d, dest =>
    some (perfmon_sampler_t.end_stats env.format env.ticks_to_secs p env.num_threads d dest)
  | perfmon_t.function p, perfmon_data.function string, dest => some (p.end_stats string dest)
  | _, _, _ => none

/-- The first loop of `perfmon_get_stats`: `data.push_back(p->begin_stats())` for the
variables of the list from position `i` on. -/
def perfmon_begin_loop (env : perfmon_env) : Nat → List perfmon_t → List perfmon_data
  | _, [] => []
  | i, p :: rest => p.begin_stats env i :: perfmon_begin_loop env (i + 1) rest

/-- The function `co_perfmon_visit(thread, data, multi_wait)`: the loop
`p->visit_stats(data[i++])` over the list, from position `i` on; `data[i++]` walks the
vector in step with the list, and reading past the end of the vector is `none`. It returns
the variables and the states after the calls. -/
def co_perfmon_visit (env : perfmon_env) (thread : Nat) :
    Nat → List perfmon_t → List perfmon_data → Option (List perfmon_t × List perfmon_data)
  | _, [], data => some ([], data)
  | _, _ :: _, [] => none
  | i, p :: rest, d :: drest =>
    match p.visit_stats env i thread d with
    | none => none
    | some (p1, d1) =>
      match co_perfmon_visit env thread (i + 1) rest drest with
      | none => none
      | some (rest1, drest1) => some (p1 :: rest1, d1 :: drest1)

/-- The visit phase of `perfmon_get_stats`: one coroutine `co_perfmon_visit` per context;
the coroutines are taken to run one after the other, in the order `order`. -/
def perfmon_visit_phase (env : perfmon_env) :
    List Nat → List perfmon_t → List perfmon_data → Option (List perfmon_t × List perfmon_data)
  | [], vars, data => some (vars, data)
  | thread :: order, vars, data =>
    match co_perfmon_visit env thread 0 vars data with
    | none => none
    | some (vars1, data1) => perfmon_visit_phase env order vars1 data1

/-- The last loop of `perfmon_get_stats`: `p->end_stats(data[i++], dest)` over the list. -/
def perfmon_end_loop (env : perfmon_env) :
    List perfmon_t → List perfmon_data → perfmon_stats_t → Option perfmon_stats_t
  | [], _, dest => some dest
  | _ :: _, [], _ => none
  | p :: rest, d :: drest, dest =>
    match p.end_stats env d dest with
    | none => none
    | some dest1 => perfmon_end_loop env rest drest dest1

/-- The variables and their states when the visit phase of `perfmon_get_stats` is over. -/
def perfmon_visited (env : perfmon_env) (vars : List perfmon_t) (order : List Nat) :
    Option (List perfmon_t × List perfmon_data) :=
  perfmon_visit_phase env order vars (perfmon_begin_loop env 0 vars)

/-- The function `perfmon_get_stats(dest)` on the registry list `vars`: the `begin_stats`
loop, the visit phase, the `end_stats` loop. It returns the variables after the visits and
the map. -/
def perfmon_get_stats (env : perfmon_env) (vars : List perfmon_t) (order : List Nat)
    (dest : perfmon_stats_t) : Option (List perfmon_t × perfmon_stats_t) :=
  match perfmon_visited env vars order with
  | none => none
  | some (vars1, data1) =>
    match perfmon_end_loop env vars1 data1 dest with
    | none => none
    | some out => some (vars1, out)

/-- The keys under which the `end_stats` of the variable writes. -/
def perfmon_t.keys : perfmon_t → List String
  | perfmon_t.counter p => [p.name]
  | perfmon_t.sampler p =>
    [p.name ++ "_avg", p.name ++ "_min", p.name ++ "_max"]
      ++ (if p.include_rate = true then [p.name ++ "_persec"] else [])
  | perfmon_t.function p => [p.name]

/-- The value that the `end_stats` of the variable `p` on the state `d` writes under the
key `k`: the entry under `k` after the call on a map with no entry. -/
def perfmon_t.written (env : perfmon_env) (p : perfmon_t) (d : perfmon_data) (k : String) :
    Option String :=
  match p.end_stats env d perfmon_stats_t.empty with
  | none => none
  | some out => out k

/-- The state `d` is a state of the class of the variable `p`. -/
def perfmon_t.owns : perfmon_t → perfmon_data → Prop
  | perfmon_t.counter _, perfmon_data.counter _ => True
  | perfmon_t.sampler _, perfmon_data.sampler _ => True
  | perfmon_t.function _, perfmon_data.function _ => True
  | _, _ => False

/-- An environment for concrete runs: 2 contexts. -/
def scenario_env : perfmon_env :=
  { num_threads := 2, format := format_fraction, ticks_to_secs := ticks_to_secs_ns,
    now := fun _ _ => 2000000000, uninit_counter := fun _ _ => 77,
    uninit_sampler := fun _ => scenario_uninit }

/-- A registry with two counters of the same name "requests": the first holds 5 and 3 on
the contexts 0 and 1, the second holds 1 and 1; between them the sampler of scenario B. -/
def scenario_registry : List perfmon_t :=
  [perfmon_t.counter { name := "requests", values := fun c => if c = 0 then 5 else 3 },
    perfmon_t.sampler scenario_b,
    perfmon_t.counter { name := "requests", values := fun _ => 1 }]

/-! ## `perfmon_get_stats`: the sequence of calls -/

/-- A call of a virtual method of `perfmon_t` made by `perfmon_get_stats`: the variable `p`
it is made on, the state pointer `data` it is given (`data[i]`, `none` when `i` is past the
end of the vector) and, for a visit, the context `thread` it runs on. -/
inductive perfmon_call (ν σ : Type) where
  | begin_stats (p : ν)
  | visit_stats (p : ν) (data : Option σ) (thread : Nat)
  | end_stats (p : ν) (data : Option σ)

/-- The call is a `visit_stats` run on context `c`. -/
def perfmon_call.on_thread {ν σ : Type} (c : Nat) : perfmon_call ν σ → Bool
  | perfmon_call.visit_stats _ _ thread => decide (thread = c)
  | _ => false

/-- The state of the visit phase of `perfmon_get_stats`: for every context the counter `i`
of the loop of its coroutine `co_perfmon_visit` (the position of `p` in the list), whether
the coroutine has left its loop and called `multi_wait->notify()`, the number of `notify()`
calls that the `multi_wait_t` has received, and the calls made so far. -/
structure visit_phase_t (ν σ : Type) where
  i : Nat → Nat
  finished : Nat → Bool
  notified : Nat
  calls : List (perfmon_call ν σ)

/-- One step of the coroutine `co_perfmon_visit` of context `thread` (of `n` contexts):
if the loop has a variable left, the call `p->visit_stats(data[i++])`; if not, the call
`multi_wait->notify()`, after which the coroutine is over. A context that has no coroutine
or whose coroutine is over does nothing. -/
def co_perfmon_visit_step {ν σ : Type} (vars : List ν) (data : List σ) (n : Nat)
    (st : visit_phase_t ν σ) (thread : Nat) : visit_phase_t ν σ :=
  if thread < n ∧ st.finished thread = false then
    match vars[st.i thread]? with
    | some p =>
      let call := perfmon_call.visit_stats p data[st.i thread]? thread
      { st with i := Function.update st.i thread (st.i thread + 1), calls := st.calls ++ [call] }
    | none =>
      { st with finished := Function.update st.finished thread true,
                notified := st.notified + 1 }
  else st

/-- The calls of the last loop of `perfmon_get_stats`, `p->end_stats(data[i++], dest)`,
from position `i` of the list on. -/
def perfmon_end_calls {ν σ : Type} (data : List σ) : Nat → List ν → List (perfmon_call ν σ)
  | _, [] => []
  | i, p :: rest => perfmon_call.end_stats p data[i]? :: perfmon_end_calls data (i + 1) rest

/-- The sequence of the calls of virtual methods that `perfmon_get_stats` makes on the
registry list `vars` with `n` contexts; `begin p` is the pointer that `p->begin_stats()`
returns and `sched` the order in which the coroutines take their steps (a context per
step). The function `coro_t::wait()` returns once the `multi_wait_t` has received `n`
calls of `notify()`; when the steps of `sched` do not bring that about the coordinator
stays blocked, which is `none`. -/
def perfmon_get_stats_calls {ν σ : Type} (vars : List ν) (begin : ν → σ) (n : Nat)
    (sched : List Nat) : Option (List (perfmon_call ν σ)) :=
  let data := vars.map begin
  let st0 : visit_phase_t ν σ :=
    { i := fun _ => 0, finished := fun _ => false, notified := 0,
      calls := vars.map perfmon_call.begin_stats }
  let st := sched.foldl (co_perfmon_visit_step vars data n) st0
  if st.notified = n then some (st.calls ++ perfmon_end_calls data 0 vars) else none

/-- The state `st` of the visit phase is the one reached when every context `c` has been
given `cnt c` steps: the loop counters, the finished coroutines, the count of `notify()`
calls, and the calls made (the `begin_stats` calls, then visits which on every context
are the visits of the first `i` variables of the list, each with its own state). -/
def visit_phase_t.reflects {ν σ : Type} (vars : List ν) (begin : ν → σ) (n : Nat)
    (cnt : Nat → Nat) (st : visit_phase_t ν σ) : Prop :=
  (∀ c, c < n → st.i c = min (cnt c) vars.length)
    ∧ (∀ c, c < n → (st.finished c = true ↔ vars.length < cnt c))
    ∧ st.notified = ((Finset.range n).filter (fun c => vars.length < cnt c)).card
    ∧ ∃ visits, st.calls = vars.map perfmon_call.begin_stats ++ visits
        ∧ (∀ c, c < n → visits.filter (perfmon_call.on_thread c)
            = (vars.take (st.i c)).map (fun p => perfmon_call.visit_stats p (some (begin p)) c))
        ∧ (∀ e, e ∈ visits →
            ∃ p c, c < n ∧ e = perfmon_call.visit_stats p (some (begin p)) c)

/-- A sampler with window 10 whose queue of context 0 holds one sample, stamped 0. -/
def scenario_tick : perfmon_sampler_t :=
  (perfmon_sampler_t.new "lat" 10 true).record 0 0 0 1

/-! ## Lemmas on the output map -/

theorem assign_same (dest : perfmon_stats_t) (k v : String) : dest.assign k v k = some v := by
  simp [perfmon_stats_t.assign]

theorem assign_other (dest : perfmon_stats_t) (k v k' : String) (h : k' ≠ k) :
    dest.assign k v k' = dest k' := by
  simp [perfmon_stats_t.assign, h]

/-! ## The counter -/

theorem wrap_int64_of_range (x : Int) (hlo : -2 ^ 63 ≤ x) (hhi : x < 2 ^ 63) :
    wrap_int64 x = x := by
  unfold wrap_int64
  omega

theorem wrap_int64_add_left (a b : Int) : wrap_int64 (wrap_int64 a + b) = wrap_int64 (a + b) := by
  unfold wrap_int64
  omega

/-- The loop of `end_stats` computes the sum of the slots `0, …, n - 1`, reduced to the
range of `int64_t`. -/
theorem counter_sum_loop_eq (data : Nat → Int) (n : Nat) :
    perfmon_counter_t.sum_loop data n = wrap_int64 (∑ c in Finset.range n, data c) := by
  induction n with
  | zero => simp [perfmon_counter_t.sum_loop, wrap_int64]
  | succ k ih =>
    rw [perfmon_counter_t.sum_loop, ih, wrap_int64_add_left, Finset.sum_range_succ]

/-- After the visit phase the slot of a visited context holds the counter's value on that
context and the slot of a context not visited is as before. -/
theorem counter_visit_all_apply (p : perfmon_counter_t) (order : List Nat) (data : Nat → Int)
    (c : Nat) :
    p.visit_all data order c = if c ∈ order then p.values c else data c := by
  induction order generalizing data with
  | nil => simp [perfmon_counter_t.visit_all]
  | cons a rest ih =>
    have hstep : p.visit_all data (a :: rest) = p.visit_all (p.visit_stats data a) rest := rfl
    rw [hstep, ih]
    by_cases hc : c ∈ rest
    · simp [hc]
    · by_cases hca : c = a
      · subst hca
        simp [hc, perfmon_counter_t.visit_stats, perfmon_counter_t.get]
      · simp [hc, hca, perfmon_counter_t.visit_stats, Function.update_noteq hca]

/-- A snapshot whose visits cover the contexts `0, …, n - 1` writes the formatted sum of the
counter's values on these contexts, reduced to the range of `int64_t`. -/
theorem counter_snapshot_wrap (p : perfmon_counter_t) (n : Nat) (uninit : Nat → Int)
    (order : List Nat) (dest : perfmon_stats_t) (horder : ∀ c, c < n → c ∈ order) :
    p.snapshot n uninit order dest p.name
      = some (format_int64 (wrap_int64 (∑ c in Finset.range n, p.values c))) := by
  unfold perfmon_counter_t.snapshot perfmon_counter_t.end_stats
  rw [assign_same, counter_sum_loop_eq]
  congr 3
  apply Finset.sum_congr rfl
  intro c hc
  rw [counter_visit_all_apply]
  simp [horder c (Finset.mem_range.mp hc)]

theorem counter_zero_loop_apply (mem : Nat → Int) (k c : Nat) :
    perfmon_counter_t.zero_loop mem k c = if c < k then 0 else mem c := by
  induction k with
  | zero => simp [perfmon_counter_t.zero_loop]
  | succ i ih =>
    rw [perfmon_counter_t.zero_loop]
    by_cases hc : c = i
    · subst hc; simp
    · rw [Function.update_noteq hc, ih]
      by_cases hlt : c < i
      · simp [hlt, Nat.lt_succ_of_lt hlt]
      · have : ¬ c < i + 1 := by omega
        simp [hlt, this]

/-- C1 (as amended): if `visit_stats` is run once on each context of `[0, n)`, in any
order and from any initial content of the state, then `end_stats` writes under the
counter's name the decimal formatting of the sum of the `n` per-context values reduced to
the range of `int64_t`; this is the formatting of the exact sum whenever the exact sum
lies in `[-2^63, 2^63)`. -/
theorem counter_snapshot_reports_sum (p : perfmon_counter_t) (n : Nat) (uninit : Nat → Int)
    (order : List Nat) (dest : perfmon_stats_t) (horder : order.Perm (List.range n)) :
    p.snapshot n uninit order dest p.name
        = some (format_int64 (wrap_int64 (∑ c in Finset.range n, p.values c)))
      ∧ (-2 ^ 63 ≤ ∑ c in Finset.range n, p.values c →
          ∑ c in Finset.range n, p.values c < 2 ^ 63 →
          p.snapshot n uninit order dest p.name
            = some (format_int64 (∑ c in Finset.range n, p.values c))) := by
  have hmem : ∀ c, c < n → c ∈ order := fun c hc =>
    horder.symm.subset (List.mem_range.mpr hc)
  refine ⟨counter_snapshot_wrap p n uninit order dest hmem, fun hlo hhi => ?_⟩
  rw [counter_snapshot_wrap p n uninit order dest hmem, wrap_int64_of_range _ hlo hhi]

/-- Scenario A: 2 contexts holding 5 and 3 give "8" under "requests". -/
theorem counter_snapshot_reports_sum_witness :
    [1, 0].Perm (List.range 2)
      ∧ (perfmon_counter_t.mk "requests" (fun c => if c = 0 then 5 else 3)).snapshot 2
          (fun _ => 77) [1, 0] perfmon_stats_t.empty "requests" = some "8" := by
  refine ⟨by decide, ?_⟩
  have h := (counter_snapshot_reports_sum
    (perfmon_counter_t.mk "requests" (fun c => if c = 0 then 5 else 3)) 2 (fun _ => 77) [1, 0]
    perfmon_stats_t.empty (by decide)).1
  rw [h]
  decide

/-- C1 (counterexample): with 2 contexts that both hold `2^62`, `end_stats` writes
"-9223372036854775808", while the formatting of the sum of the two values is
"9223372036854775808". -/
theorem counter_sum_overflow_counterexample :
    (perfmon_counter_t.mk "requests" (fun _ => 2 ^ 62)).snapshot 2 (fun _ => 0) [0, 1]
        perfmon_stats_t.empty "requests" = some "-9223372036854775808"
      ∧ format_int64
          (∑ c in Finset.range 2, (perfmon_counter_t.mk "requests" (fun _ => 2 ^ 62)).values c)
        = "9223372036854775808"
      ∧ (perfmon_counter_t.mk "requests" (fun _ => 2 ^ 62)).snapshot 2 (fun _ => 0) [0, 1]
          perfmon_stats_t.empty "requests"
        ≠ some (format_int64
          (∑ c in Finset.range 2, (perfmon_counter_t.mk "requests" (fun _ => 2 ^ 62)).values c)) := by
  have hsum : (∑ c in Finset.range 2,
      (perfmon_counter_t.mk "requests" (fun _ => 2 ^ 62)).values c) = 2 ^ 62 + 2 ^ 62 := by
    simp [Finset.sum_range_succ]
  rw [hsum]
  refine ⟨by decide, by decide, by decide⟩

/-- C2: a freshly constructed counter holds 0 in the slot of every context, and a snapshot
taken before any increment (visits on every context of `[0, n)`, `n ≤ MAX_THREADS`)
reports "0" under the counter's name. -/
theorem counter_fresh_snapshot_zero (MAX_THREADS n : Nat) (mem uninit : Nat → Int)
    (name : String) (order : List Nat) (dest : perfmon_stats_t) (hn : n ≤ MAX_THREADS)
    (horder : order.Perm (List.range n)) :
    (∀ c, c < MAX_THREADS → (perfmon_counter_t.new MAX_THREADS mem name).get c = 0)
      ∧ (perfmon_counter_t.new MAX_THREADS mem name).snapshot n uninit order dest name
          = some "0" := by
  have hzero : ∀ c, c < MAX_THREADS → (perfmon_counter_t.new MAX_THREADS mem name).values c = 0 := by
    intro c hc
    simp [perfmon_counter_t.new, counter_zero_loop_apply, hc]
  refine ⟨hzero, ?_⟩
  have hmem : ∀ c, c < n → c ∈ order := fun c hc =>
    horder.symm.subset (List.mem_range.mpr hc)
  have h := counter_snapshot_wrap (perfmon_counter_t.new MAX_THREADS mem name) n uninit order
    dest hmem
  have hname : (perfmon_counter_t.new MAX_THREADS mem name).name = name := rfl
  rw [hname] at h
  rw [h]
  have hsum : (∑ c in Finset.range n, (perfmon_counter_t.new MAX_THREADS mem name).values c) = 0 :=
    Finset.sum_eq_zero fun c hc => hzero c (lt_of_lt_of_le (Finset.mem_range.mp hc) hn)
  rw [hsum]
  decide

/-- Scenario F: a counter registered and never incremented reports "0". -/
theorem counter_fresh_snapshot_zero_witness :
    2 ≤ 4 ∧ [0, 1].Perm (List.range 2)
      ∧ (∀ c, c < 4 → (perfmon_counter_t.new 4 (fun _ => 9) "requests").get c = 0)
      ∧ (perfmon_counter_t.new 4 (fun _ => 9) "requests").snapshot 2 (fun _ => 77) [0, 1]
          perfmon_stats_t.empty "requests" = some "0" :=
  ⟨by decide, by decide,
    counter_fresh_snapshot_zero 4 2 (fun _ => 9) (fun _ => 77) "requests" [0, 1]
      perfmon_stats_t.empty (by decide) (by decide)⟩

/-! ## The sampler: expiry -/

theorem std_min_eq (a b : value_t) : std_min a b = min a b := by
  unfold std_min
  rcases lt_or_le b a with h | h
  · rw [if_pos h, min_eq_right (le_of_lt h)]
  · rw [if_neg (not_lt.mpr h), min_eq_left h]

theorem std_max_eq (a b : value_t) : std_max a b = max a b := by
  unfold std_max
  rcases lt_or_le a b with h | h
  · rw [if_pos h, max_eq_right (le_of_lt h)]
  · rw [if_neg (not_lt.mpr h), max_eq_left h]

/-- Running the eviction loop a second time at the same clock reading changes nothing. -/
theorem expire_loop_idem (length now : ticks_t) (q : List sample_t) :
    perfmon_sampler_t.expire_loop length now (perfmon_sampler_t.expire_loop length now q)
      = perfmon_sampler_t.expire_loop length now q := by
  induction q with
  | nil => rfl
  | cons s rest ih =>
    by_cases h : s.timestamp + length < now
    · simp only [perfmon_sampler_t.expire_loop, if_pos h]
      exact ih
    · simp only [perfmon_sampler_t.expire_loop, if_neg h]

/-- On a queue with non-decreasing timestamps the eviction loop keeps exactly the samples
with `now ≤ timestamp + length`. -/
theorem expire_loop_eq_filter (length now : ticks_t) (q : List sample_t)
    (hsorted : q.Pairwise (fun a b => a.timestamp ≤ b.timestamp)) :
    perfmon_sampler_t.expire_loop length now q
      = q.filter (fun s => decide (now ≤ s.timestamp + length)) := by
  induction q with
  | nil => rfl
  | cons s rest ih =>
    rw [List.pairwise_cons] at hsorted
    by_cases h : s.timestamp + length < now
    · have hd : ¬ now ≤ s.timestamp + length := not_le.mpr h
      simp only [perfmon_sampler_t.expire_loop, if_pos h]
      rw [ih hsorted.2, List.filter_cons_of_neg (by simpa using hd)]
    · have hd : now ≤ s.timestamp + length := not_lt.mp h
      simp only [perfmon_sampler_t.expire_loop, if_neg h]
      rw [List.filter_cons_of_pos (by simpa using hd)]
      congr 1
      symm
      rw [List.filter_eq_self]
      intro b hb
      have := hsorted.1 b hb
      simp only [decide_eq_true_eq]
      exact le_trans hd (Nat.add_le_add_right this length)

theorem expire_values_same (p : perfmon_sampler_t) (c : Nat) (now : ticks_t) :
    (p.expire c now).values c = perfmon_sampler_t.expire_loop p.length now (p.values c) := by
  simp [perfmon_sampler_t.expire]

theorem expire_values_other (p : perfmon_sampler_t) (c c' : Nat) (now : ticks_t) (h : c' ≠ c) :
    (p.expire c now).values c' = p.values c' := by
  simp [perfmon_sampler_t.expire, Function.update_noteq h]

/-! ## The sampler: the loop of `visit_stats` -/

theorem visit_body_values (c : Nat) (d : perfmon_sampler_step_t) (s : sample_t) :
    (perfmon_sampler_t.visit_body c d s).values c = d.values c + s.value := by
  unfold perfmon_sampler_t.visit_body
  by_cases h : d.counts c > 0 <;> simp [h]

theorem visit_body_counts (c : Nat) (d : perfmon_sampler_step_t) (s : sample_t) :
    (perfmon_sampler_t.visit_body c d s).counts c = (d.counts c + 1) % 2 ^ 64 := by
  unfold perfmon_sampler_t.visit_body
  by_cases h : d.counts c > 0 <;> simp [h]

theorem visit_body_pos (c : Nat) (d : perfmon_sampler_step_t) (s : sample_t)
    (h : 0 < d.counts c) :
    (perfmon_sampler_t.visit_body c d s).mins c = min (d.mins c) s.value
      ∧ (perfmon_sampler_t.visit_body c d s).maxes c = max (d.maxes c) s.value := by
  unfold perfmon_sampler_t.visit_body
  simp [h, std_min_eq, std_max_eq]

theorem visit_body_zero (c : Nat) (d : perfmon_sampler_step_t) (s : sample_t)
    (h : d.counts c = 0) :
    (perfmon_sampler_t.visit_body c d s).mins c = s.value
      ∧ (perfmon_sampler_t.visit_body c d s).maxes c = s.value := by
  unfold perfmon_sampler_t.visit_body
  simp [h]

theorem visit_body_frame (c c' : Nat) (d : perfmon_sampler_step_t) (s : sample_t)
    (hc : c' ≠ c) : (perfmon_sampler_t.visit_body c d s).same_slot d c' := by
  unfold perfmon_sampler_t.visit_body perfmon_sampler_step_t.same_slot
  by_cases h : d.counts c > 0 <;> simp [h, Function.update_noteq hc]

theorem visit_fold_values (c : Nat) (l : List sample_t) (d : perfmon_sampler_step_t) :
    (l.foldl (perfmon_sampler_t.visit_body c) d).values c
      = d.values c + (l.map sample_t.value).sum := by
  induction l generalizing d with
  | nil => simp
  | cons s rest ih =>
    rw [List.foldl_cons, ih, visit_body_values]
    simp [add_assoc]

theorem visit_fold_counts (c : Nat) (l : List sample_t) (d : perfmon_sampler_step_t)
    (h : d.counts c < 2 ^ 64) :
    (l.foldl (perfmon_sampler_t.visit_body c) d).counts c = (d.counts c + l.length) % 2 ^ 64 := by
  induction l generalizing d with
  | nil => simpa using (Nat.mod_eq_of_lt h).symm
  | cons s rest ih =>
    rw [List.foldl_cons, ih _ (by rw [visit_body_counts]; exact Nat.mod_lt _ (by norm_num)),
      visit_body_counts, List.length_cons]
    omega

theorem visit_fold_frame (c c' : Nat) (l : List sample_t) (d : perfmon_sampler_step_t)
    (hc : c' ≠ c) : (l.foldl (perfmon_sampler_t.visit_body c) d).same_slot d c' := by
  induction l generalizing d with
  | nil => simp [perfmon_sampler_step_t.same_slot]
  | cons s rest ih =>
    rw [List.foldl_cons]
    have h1 := ih (perfmon_sampler_t.visit_body c d s)
    have h2 := visit_body_frame c c' d s hc
    unfold perfmon_sampler_step_t.same_slot at *
    exact ⟨h1.1.trans h2.1, h1.2.1.trans h2.2.1, h1.2.2.1.trans h2.2.2.1,
      h1.2.2.2.trans h2.2.2.2⟩

theorem visit_fold_pos (c : Nat) (l : List sample_t) (d : perfmon_sampler_step_t)
    (hpos : 0 < d.counts c) (hlt : d.counts c + l.length < 2 ^ 64) :
    (l.foldl (perfmon_sampler_t.visit_body c) d).mins c
        = (l.map sample_t.value).foldl min (d.mins c)
      ∧ (l.foldl (perfmon_sampler_t.visit_body c) d).maxes c
        = (l.map sample_t.value).foldl max (d.maxes c) := by
  induction l generalizing d with
  | nil => simp
  | cons s rest ih =>
    rw [List.length_cons] at hlt
    have hcnt : (perfmon_sampler_t.visit_body c d s).counts c = d.counts c + 1 := by
      rw [visit_body_counts]
      exact Nat.mod_eq_of_lt (by omega)
    have h := ih (perfmon_sampler_t.visit_body c d s) (by omega) (by omega)
    rw [List.foldl_cons, h.1, h.2, (visit_body_pos c d s hpos).1, (visit_body_pos c d s hpos).2]
    simp

theorem foldl_min_is_least (l : List value_t) (a : value_t) :
    is_least_of (a :: l) (l.foldl min a) := by
  induction l generalizing a with
  | nil => simp [is_least_of]
  | cons b rest ih =>
    obtain ⟨hmem, hle⟩ := ih (min a b)
    rw [List.foldl_cons]
    refine ⟨?_, ?_⟩
    · rcases List.mem_cons.mp hmem with h | h
      · rw [h]
        rcases min_choice a b with h' | h' <;> simp [h']
      · simp [h]
    · intro v hv
      have h0 := hle (min a b) (List.mem_cons_self _ _)
      rcases List.mem_cons.mp hv with h | h
      · rw [h]; exact le_trans h0 (min_le_left a b)
      · rcases List.mem_cons.mp h with h | h
        · rw [h]; exact le_trans h0 (min_le_right a b)
        · exact hle v (List.mem_cons_of_mem _ h)

theorem foldl_max_is_greatest (l : List value_t) (a : value_t) :
    is_greatest_of (a :: l) (l.foldl max a) := by
  induction l generalizing a with
  | nil => simp [is_greatest_of]
  | cons b rest ih =>
    obtain ⟨hmem, hle⟩ := ih (max a b)
    rw [List.foldl_cons]
    refine ⟨?_, ?_⟩
    · rcases List.mem_cons.mp hmem with h | h
      · rw [h]
        rcases max_choice a b with h' | h' <;> simp [h']
      · simp [h]
    · intro v hv
      have h0 := hle (max a b) (List.mem_cons_self _ _)
      rcases List.mem_cons.mp hv with h | h
      · rw [h]; exact le_trans (le_max_left a b) h0
      · rcases List.mem_cons.mp h with h | h
        · rw [h]; exact le_trans (le_max_right a b) h0
        · exact hle v (List.mem_cons_of_mem _ h)

/-! ## The sampler: one visit and the visit phase -/

theorem summarises_of_same_slot (d e : perfmon_sampler_step_t) (c : Nat) (q : List sample_t)
    (hsame : e.same_slot d c) (h : d.summarises c q) : e.summarises c q := by
  unfold perfmon_sampler_step_t.same_slot at hsame
  unfold perfmon_sampler_step_t.summarises at *
  rw [hsame.1, hsame.2.1, hsame.2.2.1, hsame.2.2.2]
  exact h

theorem same_slot_trans (d e f : perfmon_sampler_step_t) (c : Nat)
    (h1 : d.same_slot e c) (h2 : e.same_slot f c) : d.same_slot f c := by
  unfold perfmon_sampler_step_t.same_slot at *
  exact ⟨h1.1.trans h2.1, h1.2.1.trans h2.2.1, h1.2.2.1.trans h2.2.2.1,
    h1.2.2.2.trans h2.2.2.2⟩

theorem visit_stats_fst (p : perfmon_sampler_t) (d : perfmon_sampler_step_t) (c : Nat)
    (now : ticks_t) : (p.visit_stats d c now).1 = p.expire c now := rfl

/-- After `visit_stats` on context `c` the slot of `c` summarises the queue that `expire`
left, whatever the state held before. -/
theorem visit_stats_summarises (p : perfmon_sampler_t) (d : perfmon_sampler_step_t) (c : Nat)
    (now : ticks_t) :
    (p.visit_stats d c now).2.summarises c
      (perfmon_sampler_t.expire_loop p.length now (p.values c)) := by
  unfold perfmon_sampler_step_t.summarises perfmon_sampler_t.visit_stats
  simp only [expire_values_same]
  generalize perfmon_sampler_t.expire_loop p.length now (p.values c) = q
  refine ⟨?_, ?_, ?_⟩
  · rw [visit_fold_values]; simp
  · rw [visit_fold_counts _ _ _ (by simp)]; simp
  · intro hne hlt
    cases q with
    | nil => exact absurd rfl hne
    | cons s rest =>
      rw [List.length_cons] at hlt
      rw [List.foldl_cons]
      have hz := visit_body_zero c
        { counts := Function.update d.counts c 0, values := Function.update d.values c 0,
          mins := d.mins, maxes := d.maxes } s (by simp)
      have hc := visit_body_counts c
        { counts := Function.update d.counts c 0, values := Function.update d.values c 0,
          mins := d.mins, maxes := d.maxes } s
      simp only [Function.update_same, Nat.zero_add] at hc
      have hc1 : (1 : Nat) % 2 ^ 64 = 1 := by norm_num
      rw [hc1] at hc
      have hf := visit_fold_pos c rest _ (by rw [hc]; exact Nat.one_pos) (by rw [hc]; omega)
      rw [hf.1, hf.2, hz.1, hz.2, List.map_cons]
      exact ⟨foldl_min_is_least _ _, foldl_max_is_greatest _ _⟩

theorem visit_stats_frame (p : perfmon_sampler_t) (d : perfmon_sampler_step_t) (c c' : Nat)
    (now : ticks_t) (hc : c' ≠ c) : (p.visit_stats d c now).2.same_slot d c' := by
  unfold perfmon_sampler_t.visit_stats
  refine same_slot_trans _ _ _ c' (visit_fold_frame c c' _ _ hc) ?_
  simp [perfmon_sampler_step_t.same_slot, Function.update_noteq hc]

theorem unexpired_expire (p : perfmon_sampler_t) (now : Nat → ticks_t) (a c : Nat) :
    (p.expire a (now a)).unexpired now c = p.unexpired now c := by
  unfold perfmon_sampler_t.unexpired
  by_cases h : c = a
  · subst h
    rw [expire_values_same]
    exact expire_loop_idem _ _ _
  · rw [expire_values_other p a c (now a) h]
    rfl

/-- The visit phase: the sampler keeps its name, length and rate flag; the queue of every
visited context is what `expire` leaves of it, the slot of every visited context
summarises that queue, and the slots of the other contexts are untouched. -/
theorem sampler_visit_all_spec (now : Nat → ticks_t) (order : List Nat) (p : perfmon_sampler_t)
    (d : perfmon_sampler_step_t) :
    (p.visit_all d now order).1.name = p.name
      ∧ (p.visit_all d now order).1.length = p.length
      ∧ (p.visit_all d now order).1.include_rate = p.include_rate
      ∧ (∀ c, (p.visit_all d now order).1.values c
            = if c ∈ order then p.unexpired now c else p.values c)
      ∧ (∀ c, c ∈ order → (p.visit_all d now order).2.summarises c (p.unexpired now c))
      ∧ (∀ c, c ∉ order → (p.visit_all d now order).2.same_slot d c) := by
  induction order generalizing p d with
  | nil =>
    simp [perfmon_sampler_t.visit_all, perfmon_sampler_step_t.same_slot]
  | cons a rest ih =>
    have hstep : p.visit_all d now (a :: rest)
        = (p.expire a (now a)).visit_all (p.visit_stats d a (now a)).2 now rest := rfl
    rw [hstep]
    obtain ⟨h1, h2, h3, h4, h5, h6⟩ := ih (p.expire a (now a)) (p.visit_stats d a (now a)).2
    refine ⟨h1, h2, h3, ?_, ?_, ?_⟩
    · intro c
      rw [h4 c, unexpired_expire]
      by_cases hr : c ∈ rest
      · simp [hr]
      · by_cases hca : c = a
        · subst hca
          simp [hr, expire_values_same, perfmon_sampler_t.unexpired]
        · simp [hr, hca, expire_values_other p a c (now a) hca]
    · intro c hc
      by_cases hr : c ∈ rest
      · have := h5 c hr
        rwa [unexpired_expire] at this
      · have hca : c = a := by
          rcases List.mem_cons.mp hc with h | h
          · exact h
          · exact absurd h hr
        subst hca
        exact summarises_of_same_slot _ _ c _ (h6 c hr) (visit_stats_summarises p d c (now c))
    · intro c hc
      have hr : c ∉ rest := fun h => hc (List.mem_cons_of_mem _ h)
      have hca : c ≠ a := fun h => hc (by rw [h]; exact List.mem_cons_self _ _)
      exact same_slot_trans _ _ _ c (h6 c hr) (visit_stats_frame p d a c (now a) hca)

/-! ## The sampler: the merge loop of `end_stats` -/

theorem values_upto_succ (Q : Nat → List sample_t) (n : Nat) :
    values_upto Q (n + 1) = values_upto Q n ++ (Q n).map sample_t.value := by
  simp [values_upto, List.range_succ, List.flatMap_append]

theorem is_least_of_append (l1 l2 : List value_t) (a b : value_t) (h1 : is_least_of l1 a)
    (h2 : is_least_of l2 b) : is_least_of (l1 ++ l2) (min b a) := by
  refine ⟨?_, ?_⟩
  · rcases min_choice b a with h | h
    · rw [h]; exact List.mem_append_right _ h2.1
    · rw [h]; exact List.mem_append_left _ h1.1
  · intro v hv
    rcases List.mem_append.mp hv with h | h
    · exact le_trans (min_le_right b a) (h1.2 v h)
    · exact le_trans (min_le_left b a) (h2.2 v h)

theorem is_greatest_of_append (l1 l2 : List value_t) (a b : value_t) (h1 : is_greatest_of l1 a)
    (h2 : is_greatest_of l2 b) : is_greatest_of (l1 ++ l2) (max b a) := by
  refine ⟨?_, ?_⟩
  · rcases max_choice b a with h | h
    · rw [h]; exact List.mem_append_right _ h2.1
    · rw [h]; exact List.mem_append_left _ h1.1
  · intro v hv
    rcases List.mem_append.mp hv with h | h
    · exact le_trans (h1.2 v h) (le_max_right b a)
    · exact le_trans (h2.2 v h) (le_max_left b a)

/-- The merge loop of `end_stats` on a state whose slots `0, …, n - 1` summarise the queues
`Q 0, …, Q (n - 1)` (fewer than `2^64` samples in all): the sum, the number, and (when
there is a sample) the least and the greatest of all the values. -/
theorem end_stats_loop_spec (d : perfmon_sampler_step_t) (Q : Nat → List sample_t) (n : Nat)
    (hsum : ∀ c, c < n → d.summarises c (Q c))
    (hmem : (values_upto Q n).length < 2 ^ 64) :
    (perfmon_sampler_t.end_stats_loop d n).value = (values_upto Q n).sum
      ∧ (perfmon_sampler_t.end_stats_loop d n).count = (values_upto Q n).length
      ∧ ((perfmon_sampler_t.end_stats_loop d n).have_any = true ↔ values_upto Q n ≠ [])
      ∧ (values_upto Q n ≠ [] →
          is_least_of (values_upto Q n) (perfmon_sampler_t.end_stats_loop d n).min
            ∧ is_greatest_of (values_upto Q n) (perfmon_sampler_t.end_stats_loop d n).max) := by
  induction n with
  | zero => simp [perfmon_sampler_t.end_stats_loop, values_upto]
  | succ k ih =>
    rw [values_upto_succ] at hmem ⊢
    rw [List.length_append, List.length_map] at hmem
    obtain ⟨hv, hc, ha, hm⟩ := ih (fun c hck => hsum c (Nat.lt_succ_of_lt hck)) (by omega)
    obtain ⟨qv, qc, qm⟩ := hsum k (Nat.lt_succ_self k)
    rw [Nat.mod_eq_of_lt (by omega)] at qc
    rw [perfmon_sampler_t.end_stats_loop]
    unfold perfmon_sampler_t.end_stats_body
    by_cases hq : Q k = []
    · have hz : d.counts k = 0 := by rw [qc, hq]; rfl
      have hvz : d.values k = 0 := by rw [qv, hq]; rfl
      simp only [hz, hvz, ne_eq, not_true_eq_false, if_false, add_zero, hq, List.map_nil,
        List.append_nil]
      rw [hc, Nat.mod_eq_of_lt (by omega)]
      exact ⟨hv, rfl, ha, hm⟩
    · have hnz : d.counts k ≠ 0 := by
        rw [qc]
        exact fun h => hq (List.length_eq_zero.mp h)
      have hcount : ((perfmon_sampler_t.end_stats_loop d k).count + d.counts k) % 2 ^ 64
          = (values_upto Q k ++ (Q k).map sample_t.value).length := by
        rw [hc, qc, List.length_append, List.length_map]
        exact Nat.mod_eq_of_lt (by omega)
      have hne : values_upto Q k ++ (Q k).map sample_t.value ≠ [] := by
        simp [hq]
      obtain ⟨qmin, qmax⟩ := qm hq (by omega)
      rw [if_pos hnz]
      by_cases hany : (perfmon_sampler_t.end_stats_loop d k).have_any = true
      · rw [if_pos hany]
        obtain ⟨kmin, kmax⟩ := hm (ha.mp hany)
        refine ⟨?_, hcount, ?_, fun _ => ⟨?_, ?_⟩⟩
        · simp only [hv, qv, List.sum_append]
        · simp [hany, hq]
        · simp only [std_min_eq]
          exact is_least_of_append _ _ _ _ kmin qmin
        · simp only [std_max_eq]
          exact is_greatest_of_append _ _ _ _ kmax qmax
      · rw [if_neg hany]
        have hnil : values_upto Q k = [] := by
          by_contra hcon
          exact hany (ha.mpr hcon)
        refine ⟨?_, hcount, ?_, fun _ => ⟨?_, ?_⟩⟩
        · simp only [hv, qv, List.sum_append]
        · simp [hq]
        · simp only [hnil, List.nil_append]
          exact qmin
        · simp only [hnil, List.nil_append]
          exact qmax

/-- The flag `have_any` of the merge loop is set exactly when some count slot is not 0. -/
theorem end_stats_loop_have_any (d : perfmon_sampler_step_t) (n : Nat) :
    (perfmon_sampler_t.end_stats_loop d n).have_any = true ↔ ∃ i, i < n ∧ d.counts i ≠ 0 := by
  induction n with
  | zero => simp [perfmon_sampler_t.end_stats_loop]
  | succ k ih =>
    rw [perfmon_sampler_t.end_stats_loop]
    unfold perfmon_sampler_t.end_stats_body
    by_cases hz : d.counts k = 0
    · simp only [hz, ne_eq, not_true_eq_false, if_false]
      rw [ih]
      constructor
      · rintro ⟨i, hi, hne⟩
        exact ⟨i, Nat.lt_succ_of_lt hi, hne⟩
      · rintro ⟨i, hi, hne⟩
        have hik : i ≠ k := fun h => hne (by rw [h]; exact hz)
        exact ⟨i, by omega, hne⟩
    · rw [if_pos hz]
      have hex : ∃ i, i < k + 1 ∧ d.counts i ≠ 0 := ⟨k, Nat.lt_succ_self k, hz⟩
      by_cases hany : (perfmon_sampler_t.end_stats_loop d k).have_any = true
      · rw [if_pos hany]
        simp [hany, hex]
      · rw [if_neg hany]
        simp [hex]

/-- The variable `count` of the merge loop is the sum of the count slots, as a `uint64_t`. -/
theorem end_stats_loop_count (d : perfmon_sampler_step_t) (n : Nat) :
    (perfmon_sampler_t.end_stats_loop d n).count
      = (∑ i in Finset.range n, d.counts i) % 2 ^ 64 := by
  induction n with
  | zero => simp [perfmon_sampler_t.end_stats_loop]
  | succ k ih =>
    rw [perfmon_sampler_t.end_stats_loop, Finset.sum_range_succ]
    have hcnt : (perfmon_sampler_t.end_stats_body d (perfmon_sampler_t.end_stats_loop d k) k).count
        = ((perfmon_sampler_t.end_stats_loop d k).count + d.counts k) % 2 ^ 64 := by
      unfold perfmon_sampler_t.end_stats_body
      by_cases hz : d.counts k = 0
      · simp [hz]
      · by_cases hany : (perfmon_sampler_t.end_stats_loop d k).have_any = true <;> simp [hz, hany]
    rw [hcnt, ih]
    omega

/-! ## The sampler: the keys written by `end_stats` -/

theorem string_append_left_cancel (s a b : String) (h : s ++ a = s ++ b) : a = b := by
  have hd := congrArg String.data h
  rw [String.data_append, String.data_append] at hd
  exact String.ext (List.append_cancel_left hd)

theorem key_avg_ne_min (s : String) : s ++ "_avg" ≠ s ++ "_min" :=
  fun h => absurd (string_append_left_cancel s _ _ h) (by decide)

theorem key_avg_ne_max (s : String) : s ++ "_avg" ≠ s ++ "_max" :=
  fun h => absurd (string_append_left_cancel s _ _ h) (by decide)

theorem key_avg_ne_persec (s : String) : s ++ "_avg" ≠ s ++ "_persec" :=
  fun h => absurd (string_append_left_cancel s _ _ h) (by decide)

theorem key_min_ne_max (s : String) : s ++ "_min" ≠ s ++ "_max" :=
  fun h => absurd (string_append_left_cancel s _ _ h) (by decide)

theorem key_min_ne_persec (s : String) : s ++ "_min" ≠ s ++ "_persec" :=
  fun h => absurd (string_append_left_cancel s _ _ h) (by decide)

theorem key_max_ne_persec (s : String) : s ++ "_max" ≠ s ++ "_persec" :=
  fun h => absurd (string_append_left_cancel s _ _ h) (by decide)

theorem sampler_end_stats_avg (format : value_t → String) (ticks_to_secs : ticks_t → value_t)
    (p : perfmon_sampler_t) (n : Nat) (d : perfmon_sampler_step_t) (dest : perfmon_stats_t) :
    perfmon_sampler_t.end_stats format ticks_to_secs p n d dest (p.name ++ "_avg")
      = some (if (perfmon_sampler_t.end_stats_loop d n).have_any = true then
          format ((perfmon_sampler_t.end_stats_loop d n).value
            / ((perfmon_sampler_t.end_stats_loop d n).count : value_t))
        else "-") := by
  unfold perfmon_sampler_t.end_stats
  by_cases hany : (perfmon_sampler_t.end_stats_loop d n).have_any = true <;>
    by_cases hr : p.include_rate = true <;>
    simp [hany, hr, perfmon_stats_t.assign, key_avg_ne_min, key_avg_ne_max, key_avg_ne_persec]

theorem sampler_end_stats_min (format : value_t → String) (ticks_to_secs : ticks_t → value_t)
    (p : perfmon_sampler_t) (n : Nat) (d : perfmon_sampler_step_t) (dest : perfmon_stats_t) :
    perfmon_sampler_t.end_stats format ticks_to_secs p n d dest (p.name ++ "_min")
      = some (if (perfmon_sampler_t.end_stats_loop d n).have_any = true then
          format (perfmon_sampler_t.end_stats_loop d n).min
        else "-") := by
  unfold perfmon_sampler_t.end_stats
  by_cases hany : (perfmon_sampler_t.end_stats_loop d n).have_any = true <;>
    by_cases hr : p.include_rate = true <;>
    simp [hany, hr, perfmon_stats_t.assign, key_min_ne_max, key_min_ne_persec]

theorem sampler_end_stats_max (format : value_t → String) (ticks_to_secs : ticks_t → value_t)
    (p : perfmon_sampler_t) (n : Nat) (d : perfmon_sampler_step_t) (dest : perfmon_stats_t) :
    perfmon_sampler_t.end_stats format ticks_to_secs p n d dest (p.name ++ "_max")
      = some (if (perfmon_sampler_t.end_stats_loop d n).have_any = true then
          format (perfmon_sampler_t.end_stats_loop d n).max
        else "-") := by
  unfold perfmon_sampler_t.end_stats
  by_cases hany : (perfmon_sampler_t.end_stats_loop d n).have_any = true <;>
    by_cases hr : p.include_rate = true <;>
    simp [hany, hr, perfmon_stats_t.assign, key_max_ne_persec]

theorem sampler_end_stats_persec (format : value_t → String) (ticks_to_secs : ticks_t → value_t)
    (p : perfmon_sampler_t) (n : Nat) (d : perfmon_sampler_step_t) (dest : perfmon_stats_t) :
    perfmon_sampler_t.end_stats format ticks_to_secs p n d dest (p.name ++ "_persec")
      = if p.include_rate = true then
          some (format (((perfmon_sampler_t.end_stats_loop d n).count : value_t)
            / ticks_to_secs p.length))
        else dest (p.name ++ "_persec") := by
  unfold perfmon_sampler_t.end_stats
  by_cases hany : (perfmon_sampler_t.end_stats_loop d n).have_any = true <;>
    by_cases hr : p.include_rate = true <;>
    simp [hany, hr, perfmon_stats_t.assign, (key_avg_ne_persec p.name).symm,
      (key_min_ne_persec p.name).symm, (key_max_ne_persec p.name).symm]

theorem sampler_end_stats_other (format : value_t → String) (ticks_to_secs : ticks_t → value_t)
    (p : perfmon_sampler_t) (n : Nat) (d : perfmon_sampler_step_t) (dest : perfmon_stats_t)
    (k : String) (h1 : k ≠ p.name ++ "_avg") (h2 : k ≠ p.name ++ "_min")
    (h3 : k ≠ p.name ++ "_max") (h4 : k ≠ p.name ++ "_persec") :
    perfmon_sampler_t.end_stats format ticks_to_secs p n d dest k = dest k := by
  unfold perfmon_sampler_t.end_stats
  by_cases hany : (perfmon_sampler_t.end_stats_loop d n).have_any = true <;>
    by_cases hr : p.include_rate = true <;>
    simp [hany, hr, perfmon_stats_t.assign, h1, h2, h3, h4]

theorem format_fraction_ne_dash (q : value_t) : format_fraction q ≠ "-" := by
  intro h
  have hd := congrArg String.data h
  unfold format_fraction at hd
  rw [String.data_append, String.data_append] at hd
  have hmem : '/' ∈ (toString q.num).data ++ "/".data ++ (toString q.den).data := by
    simp
  rw [hd] at hmem
  simp at hmem

/-! ## The sampler: the claims -/

/-- C3: for a queue with non-decreasing timestamps and every clock reading `now`, after
`expire`, and after `visit_stats`, the queue is exactly the samples of the original queue
with `timestamp + length ≥ now`, in their original order; no remaining sample has an age
`now - timestamp` above the window length, every sample of that age is gone, and the state
that `visit_stats` computes (sum, count, min, max) is the one it computes when the queue
holds the remaining samples only. -/
theorem sampler_expire_keeps_window (p : perfmon_sampler_t) (d : perfmon_sampler_step_t)
    (thread : Nat) (now : ticks_t)
    (hsorted : (p.values thread).Pairwise (fun a b => a.timestamp ≤ b.timestamp)) :
    (p.expire thread now).values thread
        = (p.values thread).filter (fun s => decide (now ≤ s.timestamp + p.length))
      ∧ (p.visit_stats d thread now).1.values thread
        = (p.values thread).filter (fun s => decide (now ≤ s.timestamp + p.length))
      ∧ (∀ s, s ∈ (p.visit_stats d thread now).1.values thread →
          s ∈ p.values thread ∧ now - s.timestamp ≤ p.length)
      ∧ (∀ s, s ∈ p.values thread → p.length < now - s.timestamp →
          s ∉ (p.visit_stats d thread now).1.values thread)
      ∧ (p.visit_stats d thread now).2.summarises thread
          ((p.values thread).filter (fun s => decide (now ≤ s.timestamp + p.length)))
      ∧ (p.visit_stats d thread now).2
        = ((p.with_queue thread
            ((p.values thread).filter (fun s => decide (now ≤ s.timestamp + p.length)))).visit_stats
            d thread now).2 := by
  have hq := expire_loop_eq_filter p.length now (p.values thread) hsorted
  have h1 : (p.expire thread now).values thread
      = (p.values thread).filter (fun s => decide (now ≤ s.timestamp + p.length)) := by
    rw [expire_values_same, hq]
  have hage : ∀ s : sample_t, now ≤ s.timestamp + p.length ↔ now - s.timestamp ≤ p.length := by
    intro s
    rw [Nat.sub_le_iff_le_add, Nat.add_comm]
  refine ⟨h1, ?_, ?_, ?_, ?_, ?_⟩
  · rw [visit_stats_fst, h1]
  · intro s hs
    rw [visit_stats_fst, h1, List.mem_filter] at hs
    exact ⟨hs.1, (hage s).mp (by simpa using hs.2)⟩
  · intro s _ hold hs
    rw [visit_stats_fst, h1, List.mem_filter] at hs
    have := (hage s).mp (by simpa using hs.2)
    exact absurd hold (not_lt.mpr this)
  · rw [← hq]
    exact visit_stats_summarises p d thread now
  · rw [← hq]
    unfold perfmon_sampler_t.visit_stats
    simp only [expire_values_same, perfmon_sampler_t.with_queue, Function.update_same,
      expire_loop_idem]

/-- C3 (witness): window 10, samples stamped 0, 5 and 12, clock at 16: the samples stamped
0 and 5 are evicted, the sample stamped 12 stays. -/
theorem sampler_expire_keeps_window_witness :
    ([⟨1, 0⟩, ⟨2, 5⟩, ⟨3, 12⟩] : List sample_t).Pairwise (fun a b => a.timestamp ≤ b.timestamp)
      ∧ ((perfmon_sampler_t.mk "lat" 10 true (fun _ => [⟨1, 0⟩, ⟨2, 5⟩, ⟨3, 12⟩])).expire 0 16).values 0
          = [⟨3, 12⟩] := by
  refine ⟨by decide, ?_⟩
  have h := (sampler_expire_keeps_window
    (perfmon_sampler_t.mk "lat" 10 true (fun _ => [⟨1, 0⟩, ⟨2, 5⟩, ⟨3, 12⟩]))
    ⟨fun _ => 0, fun _ => 0, fun _ => 0, fun _ => 0⟩ 0 16 (by decide)).1
  rw [h]
  rfl

/-- The state of a snapshot after its visit phase summarises, for every context of
`[0, n)`, the unexpired samples of that context. -/
theorem sampler_visit_all_summarises (p : perfmon_sampler_t) (n : Nat)
    (uninit : perfmon_sampler_step_t) (now : Nat → ticks_t) (order : List Nat)
    (horder : order.Perm (List.range n)) :
    ∀ c, c < n →
      (p.visit_all (p.begin_stats uninit) now order).2.summarises c (p.unexpired now c) :=
  fun c hc =>
    (sampler_visit_all_spec now order p (p.begin_stats uninit)).2.2.2.2.1 c
      (horder.symm.subset (List.mem_range.mpr hc))

/-- C4: for `n` contexts whose queues are not all empty after expiry (and hold fewer than
`2^64` samples, as queues in memory do), `visit_stats` on every context followed by
`end_stats` writes `name_avg = format (S / K)`, `name_min = format m` and
`name_max = format M`, where `S`, `K`, `m`, `M` are the sum, the number, the least and the
greatest of the values of all unexpired samples of all contexts taken together. -/
theorem sampler_snapshot_avg_min_max (format : value_t → String)
    (ticks_to_secs : ticks_t → value_t) (p : perfmon_sampler_t) (n : Nat)
    (uninit : perfmon_sampler_step_t) (now : Nat → ticks_t) (order : List Nat)
    (dest : perfmon_stats_t) (horder : order.Perm (List.range n))
    (hne : p.unexpired_values now n ≠ [])
    (hmem : (p.unexpired_values now n).length < 2 ^ 64) :
    ∃ m M, is_least_of (p.unexpired_values now n) m
      ∧ is_greatest_of (p.unexpired_values now n) M
      ∧ perfmon_sampler_t.snapshot format ticks_to_secs p n uninit now order dest
          (p.name ++ "_avg")
        = some (format ((p.unexpired_values now n).sum
            / ((p.unexpired_values now n).length : value_t)))
      ∧ perfmon_sampler_t.snapshot format ticks_to_secs p n uninit now order dest
          (p.name ++ "_min") = some (format m)
      ∧ perfmon_sampler_t.snapshot format ticks_to_secs p n uninit now order dest
          (p.name ++ "_max") = some (format M) := by
  obtain ⟨hv, hc, ha, hm⟩ := end_stats_loop_spec
    (p.visit_all (p.begin_stats uninit) now order).2 (p.unexpired now) n
    (sampler_visit_all_summarises p n uninit now order horder) hmem
  have hany := ha.mpr hne
  have hname := (sampler_visit_all_spec now order p (p.begin_stats uninit)).1
  refine ⟨_, _, (hm hne).1, (hm hne).2, ?_, ?_, ?_⟩
  · unfold perfmon_sampler_t.snapshot
    rw [← hname, sampler_end_stats_avg, if_pos hany, hv, hc]
    rfl
  · unfold perfmon_sampler_t.snapshot
    rw [← hname, sampler_end_stats_min, if_pos hany]
  · unfold perfmon_sampler_t.snapshot
    rw [← hname, sampler_end_stats_max, if_pos hany]

theorem scenario_b_unexpired_values :
    scenario_b.unexpired_values (fun _ => 2000000000) 1 = [1, 2, 3] := by
  rfl

theorem is_least_of_unique (vals : List value_t) (a b : value_t) (ha : is_least_of vals a)
    (hb : is_least_of vals b) : a = b :=
  le_antisymm (ha.2 b hb.1) (hb.2 a ha.1)

theorem is_greatest_of_unique (vals : List value_t) (a b : value_t) (ha : is_greatest_of vals a)
    (hb : is_greatest_of vals b) : a = b :=
  le_antisymm (hb.2 a ha.1) (ha.2 b hb.1)

/-- C4 (witness), scenario B: the values 1, 2, 3 on one context give the average 2, the
minimum 1 and the maximum 3. -/
theorem sampler_snapshot_avg_min_max_witness :
    [0].Perm (List.range 1)
      ∧ scenario_b.unexpired_values (fun _ => 2000000000) 1 = [1, 2, 3]
      ∧ perfmon_sampler_t.snapshot format_fraction ticks_to_secs_ns scenario_b 1 scenario_uninit
          (fun _ => 2000000000) [0] perfmon_stats_t.empty "lat_avg" = some "2/1"
      ∧ perfmon_sampler_t.snapshot format_fraction ticks_to_secs_ns scenario_b 1 scenario_uninit
          (fun _ => 2000000000) [0] perfmon_stats_t.empty "lat_min" = some "1/1"
      ∧ perfmon_sampler_t.snapshot format_fraction ticks_to_secs_ns scenario_b 1 scenario_uninit
          (fun _ => 2000000000) [0] perfmon_stats_t.empty "lat_max" = some "3/1" := by
  obtain ⟨m, M, hm, hM, havg, hmin, hmax⟩ :=
    sampler_snapshot_avg_min_max format_fraction ticks_to_secs_ns scenario_b 1 scenario_uninit
      (fun _ => 2000000000) [0] perfmon_stats_t.empty (by decide)
      (by rw [scenario_b_unexpired_values]; simp)
      (by rw [scenario_b_unexpired_values]; simp)
  rw [scenario_b_unexpired_values] at hm hM havg
  have h1 : m = 1 := is_least_of_unique [1, 2, 3] m 1 hm (by unfold is_least_of; norm_num)
  have h3 : M = 3 := is_greatest_of_unique [1, 2, 3] M 3 hM (by unfold is_greatest_of; norm_num)
  have hname : scenario_b.name = "lat" := rfl
  have hsum : ([1, 2, 3] : List value_t).sum / (([1, 2, 3] : List value_t).length : value_t) = 2 := by
    norm_num
  have kavg : ("lat" ++ "_avg" : String) = "lat_avg" := by decide
  have kmin : ("lat" ++ "_min" : String) = "lat_min" := by decide
  have kmax : ("lat" ++ "_max" : String) = "lat_max" := by decide
  rw [hname, hsum, kavg] at havg
  rw [hname, h1, kmin] at hmin
  rw [hname, h3, kmax] at hmax
  refine ⟨by decide, scenario_b_unexpired_values, ?_, ?_, ?_⟩
  · rw [havg]; rfl
  · rw [hmin]; rfl
  · rw [hmax]; rfl

theorem least_le_average (vals : List value_t) (m : value_t) (hpos : 0 < vals.length)
    (h : is_least_of vals m) : m ≤ vals.sum / (vals.length : value_t) := by
  have hlen : (0 : value_t) < (vals.length : value_t) := by exact_mod_cast hpos
  rw [le_div_iff₀ hlen]
  have := List.card_nsmul_le_sum vals m h.2
  rw [nsmul_eq_mul] at this
  linarith

theorem average_le_greatest (vals : List value_t) (m : value_t) (hpos : 0 < vals.length)
    (h : is_greatest_of vals m) : vals.sum / (vals.length : value_t) ≤ m := by
  have hlen : (0 : value_t) < (vals.length : value_t) := by exact_mod_cast hpos
  rw [div_le_iff₀ hlen]
  have := List.sum_le_card_nsmul vals m h.2
  rw [nsmul_eq_mul] at this
  linarith

/-- C5: whenever the total count of unexpired samples over all contexts is greater than 0
(and below `2^64`, as for queues in memory), `end_stats` formats under `name_min`,
`name_avg`, `name_max` the variables `min`, `value / count`, `max` of its merge loop, and
these satisfy `min ≤ value / count ≤ max` in exact arithmetic. -/
theorem sampler_min_le_avg_le_max (format : value_t → String)
    (ticks_to_secs : ticks_t → value_t) (p : perfmon_sampler_t) (n : Nat)
    (uninit : perfmon_sampler_step_t) (now : Nat → ticks_t) (order : List Nat)
    (dest : perfmon_stats_t) (horder : order.Perm (List.range n))
    (hpos : 0 < (p.unexpired_values now n).length)
    (hmem : (p.unexpired_values now n).length < 2 ^ 64) :
    (p.merged n uninit now order).count = (p.unexpired_values now n).length
      ∧ perfmon_sampler_t.snapshot format ticks_to_secs p n uninit now order dest
          (p.name ++ "_min") = some (format (p.merged n uninit now order).min)
      ∧ perfmon_sampler_t.snapshot format ticks_to_secs p n uninit now order dest
          (p.name ++ "_avg")
        = some (format ((p.merged n uninit now order).value
            / ((p.merged n uninit now order).count : value_t)))
      ∧ perfmon_sampler_t.snapshot format ticks_to_secs p n uninit now order dest
          (p.name ++ "_max") = some (format (p.merged n uninit now order).max)
      ∧ (p.merged n uninit now order).min
          ≤ (p.merged n uninit now order).value / ((p.merged n uninit now order).count : value_t)
      ∧ (p.merged n uninit now order).value / ((p.merged n uninit now order).count : value_t)
          ≤ (p.merged n uninit now order).max := by
  have hne : p.unexpired_values now n ≠ [] := List.length_pos.mp hpos
  obtain ⟨hv, hc, ha, hm⟩ := end_stats_loop_spec
    (p.visit_all (p.begin_stats uninit) now order).2 (p.unexpired now) n
    (sampler_visit_all_summarises p n uninit now order horder) hmem
  have hany := ha.mpr hne
  have hname := (sampler_visit_all_spec now order p (p.begin_stats uninit)).1
  refine ⟨hc, ?_, ?_, ?_, ?_, ?_⟩
  · unfold perfmon_sampler_t.snapshot perfmon_sampler_t.merged
    rw [← hname, sampler_end_stats_min, if_pos hany]
  · unfold perfmon_sampler_t.snapshot perfmon_sampler_t.merged
    rw [← hname, sampler_end_stats_avg, if_pos hany]
  · unfold perfmon_sampler_t.snapshot perfmon_sampler_t.merged
    rw [← hname, sampler_end_stats_max, if_pos hany]
  · unfold perfmon_sampler_t.merged
    rw [hv, hc]
    exact least_le_average _ _ hpos (hm hne).1
  · unfold perfmon_sampler_t.merged
    rw [hv, hc]
    exact average_le_greatest _ _ hpos (hm hne).2

/-- C5 (witness), scenario B: with the values 1, 2, 3 the merge loop ends with `min = 1`,
`value / count = 6 / 3` and `max = 3`. -/
theorem sampler_min_le_avg_le_max_witness :
    [0].Perm (List.range 1)
      ∧ 0 < (scenario_b.unexpired_values (fun _ => 2000000000) 1).length
      ∧ (scenario_b.unexpired_values (fun _ => 2000000000) 1).length < 2 ^ 64
      ∧ (scenario_b.merged 1 scenario_uninit (fun _ => 2000000000) [0]).min
          ≤ (scenario_b.merged 1 scenario_uninit (fun _ => 2000000000) [0]).value
            / ((scenario_b.merged 1 scenario_uninit (fun _ => 2000000000) [0]).count : value_t)
      ∧ (scenario_b.merged 1 scenario_uninit (fun _ => 2000000000) [0]).value
            / ((scenario_b.merged 1 scenario_uninit (fun _ => 2000000000) [0]).count : value_t)
          ≤ (scenario_b.merged 1 scenario_uninit (fun _ => 2000000000) [0]).max :=
  have hpos : 0 < (scenario_b.unexpired_values (fun _ => 2000000000) 1).length := by
    rw [scenario_b_unexpired_values]; decide
  have hmem : (scenario_b.unexpired_values (fun _ => 2000000000) 1).length < 2 ^ 64 := by
    rw [scenario_b_unexpired_values]; simp
  ⟨by decide, hpos, hmem,
    (sampler_min_le_avg_le_max format_fraction ticks_to_secs_ns scenario_b 1 scenario_uninit
      (fun _ => 2000000000) [0] perfmon_stats_t.empty (by decide) hpos hmem).2.2.2.2⟩

theorem counts_all_zero_iff_sum (d : perfmon_sampler_step_t) (n : Nat) :
    (∀ i, i < n → d.counts i = 0) ↔ ∑ i in Finset.range n, d.counts i = 0 := by
  rw [Finset.sum_eq_zero_iff]
  simp [Finset.mem_range]

theorem have_any_false_iff (d : perfmon_sampler_step_t) (n : Nat) :
    ¬ (perfmon_sampler_t.end_stats_loop d n).have_any = true ↔ ∀ i, i < n → d.counts i = 0 := by
  rw [end_stats_loop_have_any]
  push_neg
  rfl

/-- C6: `end_stats` writes "-" under `name_avg`, under `name_min` and under `name_max` if
and only if every context's count slot is 0, that is, the total count is 0 (`format`
itself never yields "-"); in that case, with the rate enabled and a window that is not 0
seconds long, it writes the formatting of 0 under `name_persec`. -/
theorem sampler_placeholder_iff_no_samples (format : value_t → String)
    (ticks_to_secs : ticks_t → value_t) (p : perfmon_sampler_t) (n : Nat)
    (d : perfmon_sampler_step_t) (dest : perfmon_stats_t) (hformat : ∀ q, format q ≠ "-") :
    ((∀ i, i < n → d.counts i = 0) ↔ ∑ i in Finset.range n, d.counts i = 0)
      ∧ (perfmon_sampler_t.end_stats format ticks_to_secs p n d dest (p.name ++ "_avg")
          = some "-" ↔ ∀ i, i < n → d.counts i = 0)
      ∧ (perfmon_sampler_t.end_stats format ticks_to_secs p n d dest (p.name ++ "_min")
          = some "-" ↔ ∀ i, i < n → d.counts i = 0)
      ∧ (perfmon_sampler_t.end_stats format ticks_to_secs p n d dest (p.name ++ "_max")
          = some "-" ↔ ∀ i, i < n → d.counts i = 0)
      ∧ ((∀ i, i < n → d.counts i = 0) → p.include_rate = true →
          ticks_to_secs p.length ≠ 0 →
          perfmon_sampler_t.end_stats format ticks_to_secs p n d dest (p.name ++ "_persec")
            = some (format 0)) := by
  refine ⟨counts_all_zero_iff_sum d n, ?_, ?_, ?_, ?_⟩
  · rw [sampler_end_stats_avg, ← have_any_false_iff]
    by_cases hany : (perfmon_sampler_t.end_stats_loop d n).have_any = true
    · simp [hany, hformat]
    · simp [hany]
  · rw [sampler_end_stats_min, ← have_any_false_iff]
    by_cases hany : (perfmon_sampler_t.end_stats_loop d n).have_any = true
    · simp [hany, hformat]
    · simp [hany]
  · rw [sampler_end_stats_max, ← have_any_false_iff]
    by_cases hany : (perfmon_sampler_t.end_stats_loop d n).have_any = true
    · simp [hany, hformat]
    · simp [hany]
  · intro hz hrate _
    rw [sampler_end_stats_persec, if_pos hrate, end_stats_loop_count,
      (counts_all_zero_iff_sum d n).mp hz]
    simp

/-- C6 (witness), scenario C: window 10 s, rate enabled, no samples: "-" under `lat_avg`,
`lat_min` and `lat_max`, the formatting of 0 under `lat_persec`. -/
theorem sampler_placeholder_iff_no_samples_witness :
    (∀ q, format_fraction q ≠ "-")
      ∧ perfmon_sampler_t.snapshot format_fraction ticks_to_secs_ns scenario_c 2 scenario_uninit
          (fun _ => 5000000000) [0, 1] perfmon_stats_t.empty "lat_avg" = some "-"
      ∧ perfmon_sampler_t.snapshot format_fraction ticks_to_secs_ns scenario_c 2 scenario_uninit
          (fun _ => 5000000000) [0, 1] perfmon_stats_t.empty "lat_min" = some "-"
      ∧ perfmon_sampler_t.snapshot format_fraction ticks_to_secs_ns scenario_c 2 scenario_uninit
          (fun _ => 5000000000) [0, 1] perfmon_stats_t.empty "lat_max" = some "-"
      ∧ perfmon_sampler_t.snapshot format_fraction ticks_to_secs_ns scenario_c 2 scenario_uninit
          (fun _ => 5000000000) [0, 1] perfmon_stats_t.empty "lat_persec" = some "0/1" := by
  have hz : ∀ i, i < 2 →
      (scenario_c.visit_all (scenario_c.begin_stats scenario_uninit) (fun _ => 5000000000)
        [0, 1]).2.counts i = 0 := by
    intro i hi
    interval_cases i <;> rfl
  obtain ⟨_, havg, hmin, hmax, hrate⟩ := sampler_placeholder_iff_no_samples format_fraction
    ticks_to_secs_ns
    (scenario_c.visit_all (scenario_c.begin_stats scenario_uninit) (fun _ => 5000000000) [0, 1]).1
    2
    (scenario_c.visit_all (scenario_c.begin_stats scenario_uninit) (fun _ => 5000000000) [0, 1]).2
    perfmon_stats_t.empty format_fraction_ne_dash
  have hsecs : ticks_to_secs_ns
      (scenario_c.visit_all (scenario_c.begin_stats scenario_uninit) (fun _ => 5000000000)
        [0, 1]).1.length ≠ 0 := by
    have hl : (scenario_c.visit_all (scenario_c.begin_stats scenario_uninit)
        (fun _ => 5000000000) [0, 1]).1.length = 10000000000 := rfl
    rw [hl]
    unfold ticks_to_secs_ns
    norm_num
  exact ⟨format_fraction_ne_dash, havg.mpr hz, hmin.mpr hz, hmax.mpr hz, hrate hz rfl hsecs⟩

/-- C7: `end_stats` always writes the three keys `name_avg`, `name_min` and `name_max`; it
writes the key `name_persec` if `include_rate` is set and leaves that entry of the
destination alone if it is not; it touches no other key; the value under `name_persec` is
the formatting of (total count over all contexts) / (window length in seconds), whether or
not the total count is zero (the total being below `2^64`, as for queues in memory). -/
theorem sampler_end_stats_keys (format : value_t → String) (ticks_to_secs : ticks_t → value_t)
    (p : perfmon_sampler_t) (n : Nat) (d : perfmon_sampler_step_t) (dest : perfmon_stats_t)
    (hcount : ∑ i in Finset.range n, d.counts i < 2 ^ 64) :
    (∃ v, perfmon_sampler_t.end_stats format ticks_to_secs p n d dest (p.name ++ "_avg")
        = some v)
      ∧ (∃ v, perfmon_sampler_t.end_stats format ticks_to_secs p n d dest (p.name ++ "_min")
          = some v)
      ∧ (∃ v, perfmon_sampler_t.end_stats format ticks_to_secs p n d dest (p.name ++ "_max")
          = some v)
      ∧ (p.include_rate = true →
          perfmon_sampler_t.end_stats format ticks_to_secs p n d dest (p.name ++ "_persec")
            = some (format (((∑ i in Finset.range n, d.counts i : Nat) : value_t)
                / ticks_to_secs p.length)))
      ∧ (p.include_rate = false →
          perfmon_sampler_t.end_stats format ticks_to_secs p n d dest (p.name ++ "_persec")
            = dest (p.name ++ "_persec"))
      ∧ (∀ k, k ≠ p.name ++ "_avg" → k ≠ p.name ++ "_min" → k ≠ p.name ++ "_max" →
          k ≠ p.name ++ "_persec" →
          perfmon_sampler_t.end_stats format ticks_to_secs p n d dest k = dest k) := by
  refine ⟨⟨_, sampler_end_stats_avg format ticks_to_secs p n d dest⟩,
    ⟨_, sampler_end_stats_min format ticks_to_secs p n d dest⟩,
    ⟨_, sampler_end_stats_max format ticks_to_secs p n d dest⟩, ?_, ?_,
    sampler_end_stats_other format ticks_to_secs p n d dest⟩
  · intro hrate
    rw [sampler_end_stats_persec, if_pos hrate, end_stats_loop_count, Nat.mod_eq_of_lt hcount]
  · intro hrate
    rw [sampler_end_stats_persec, if_neg (by simp [hrate])]

theorem format_fraction_three_tenths : format_fraction (3 / 10) = "3/10" := by
  have hnum : ((3 : value_t) / 10).num = 3 := by
    have h := Rat.num_div_eq_of_coprime (a := 3) (b := 10) (by norm_num) (by decide)
    simpa using h
  have hden : ((3 : value_t) / 10).den = 10 := by
    have h := Rat.den_div_eq_of_coprime (a := 3) (b := 10) (by norm_num) (by decide)
    have h2 : (((3 : value_t) / 10).den : Int) = 10 := by simpa using h
    exact_mod_cast h2
  unfold format_fraction
  rw [hnum, hden]
  decide

/-- C7 (witness), scenario B: 3 samples and a window of 10 s give the rate 3/10. -/
theorem sampler_end_stats_keys_witness :
    (∑ i in Finset.range 1,
        (scenario_b.visit_all (scenario_b.begin_stats scenario_uninit) (fun _ => 2000000000)
          [0]).2.counts i) < 2 ^ 64
      ∧ perfmon_sampler_t.snapshot format_fraction ticks_to_secs_ns scenario_b 1 scenario_uninit
          (fun _ => 2000000000) [0] perfmon_stats_t.empty "lat_persec" = some "3/10" := by
  have hcnt : (scenario_b.visit_all (scenario_b.begin_stats scenario_uninit)
      (fun _ => 2000000000) [0]).2.counts 0 = 3 := rfl
  have hsum : (∑ i in Finset.range 1,
      (scenario_b.visit_all (scenario_b.begin_stats scenario_uninit) (fun _ => 2000000000)
        [0]).2.counts i) = 3 := by
    rw [Finset.sum_range_one, hcnt]
  have hlt : (∑ i in Finset.range 1,
      (scenario_b.visit_all (scenario_b.begin_stats scenario_uninit) (fun _ => 2000000000)
        [0]).2.counts i) < 2 ^ 64 := by
    rw [hsum]; norm_num
  have h := (sampler_end_stats_keys format_fraction ticks_to_secs_ns
    (scenario_b.visit_all (scenario_b.begin_stats scenario_uninit) (fun _ => 2000000000) [0]).1
    1
    (scenario_b.visit_all (scenario_b.begin_stats scenario_uninit) (fun _ => 2000000000) [0]).2
    perfmon_stats_t.empty hlt).2.2.2.1 rfl
  rw [hsum] at h
  have hsecs : ((3 : Nat) : value_t) / ticks_to_secs_ns
      (scenario_b.visit_all (scenario_b.begin_stats scenario_uninit) (fun _ => 2000000000)
        [0]).1.length = 3 / 10 := by
    have hl : (scenario_b.visit_all (scenario_b.begin_stats scenario_uninit)
        (fun _ => 2000000000) [0]).1.length = 10000000000 := rfl
    rw [hl]
    unfold ticks_to_secs_ns
    norm_num
  rw [hsecs, format_fraction_three_tenths] at h
  exact ⟨hlt, h⟩

/-! ## The function statistic -/

theorem string_length_eq_zero_iff (s : String) : s.length = 0 ↔ s = "" := by
  constructor
  · intro h
    have hd : s.data = [] := List.length_eq_zero.mp h
    exact String.ext hd
  · intro h
    rw [h]
    rfl

theorem string_length_pos_iff (s : String) : 0 < s.length ↔ s ≠ "" := by
  rw [Nat.pos_iff_ne_zero, ne_eq, string_length_eq_zero_iff]

theorem visit_loop_append (l1 l2 : List internal_function_t) (s : String) :
    perfmon_function_t.visit_loop (l1 ++ l2) s
      = perfmon_function_t.visit_loop l2 (perfmon_function_t.visit_loop l1 s) := by
  induction l1 generalizing s with
  | nil => rfl
  | cons f rest ih =>
    simp only [List.cons_append, perfmon_function_t.visit_loop]
    exact ih _

/-- The visit phase appends to the one string of the snapshot the texts of the providers of
the visited contexts, in the order of the visits. -/
theorem function_visit_all_eq (p : perfmon_function_t) (order : List Nat) (s : String) :
    p.visit_all s order = perfmon_function_t.visit_loop (order.flatMap p.funs) s := by
  induction order generalizing s with
  | nil => rfl
  | cons a rest ih =>
    have hstep : p.visit_all s (a :: rest) = p.visit_all (p.visit_stats s a) rest := rfl
    rw [hstep, ih, List.flatMap_cons, visit_loop_append]
    rfl

theorem function_texts_eq (p : perfmon_function_t) (order : List Nat) :
    p.texts order = (order.flatMap p.funs).map internal_function_t.compute_stat := by
  unfold perfmon_function_t.texts
  induction order with
  | nil => rfl
  | cons a rest ih => simp [List.flatMap_cons, ih]

/-- On a string that is not empty the loop of `visit_stats` is the accumulating loop of
`String.intercalate`. -/
theorem visit_loop_of_pos (l : List internal_function_t) (acc : String) (h : 0 < acc.length) :
    perfmon_function_t.visit_loop l acc
      = String.intercalate.go acc ", " (l.map internal_function_t.compute_stat) := by
  induction l generalizing acc with
  | nil => rfl
  | cons f rest ih =>
    simp only [perfmon_function_t.visit_loop, List.map_cons, String.intercalate.go]
    rw [if_pos h]
    apply ih
    simp only [String.length_append]
    omega

/-- On the empty string the loop of `visit_stats` skips the leading empty texts and joins
the remaining ones with ", ". -/
theorem visit_loop_of_empty (l : List internal_function_t) :
    perfmon_function_t.visit_loop l ""
      = ", ".intercalate
          ((l.map internal_function_t.compute_stat).dropWhile (fun t => decide (t = ""))) := by
  induction l with
  | nil => rfl
  | cons f rest ih =>
    simp only [perfmon_function_t.visit_loop, List.map_cons, String.length_empty,
      gt_iff_lt, Nat.lt_irrefl, if_false, String.empty_append]
    by_cases hf : f.compute_stat = ""
    · rw [hf, ih, List.dropWhile_cons_of_pos (by simp)]
    · rw [List.dropWhile_cons_of_neg (by simpa using hf)]
      rw [visit_loop_of_pos rest _ ((string_length_pos_iff _).mpr hf)]
      rfl

theorem intercalate_go_length (acc s : String) (l : List String) :
    acc.length ≤ (String.intercalate.go acc s l).length := by
  induction l generalizing acc with
  | nil => exact Nat.le_refl _
  | cons a rest ih =>
    simp only [String.intercalate.go]
    refine Nat.le_trans ?_ (ih _)
    simp only [String.length_append]
    omega

theorem dropWhile_empty_eq_self (l : List String) (t : String) (rest : List String)
    (hl : l = t :: rest) (ht : t ≠ "") : l.dropWhile (fun t => decide (t = "")) = l := by
  subst hl
  exact List.dropWhile_cons_of_neg (by simpa using ht)

/-- The joined string is empty exactly when every text is empty. -/
theorem joined_eq_empty_iff (l : List String) :
    ", ".intercalate (l.dropWhile (fun t => decide (t = ""))) = "" ↔ ∀ t, t ∈ l → t = "" := by
  induction l with
  | nil => simp [String.intercalate]
  | cons a rest ih =>
    by_cases ha : a = ""
    · rw [List.dropWhile_cons_of_pos (by simpa using ha), ih]
      simp [ha]
    · rw [List.dropWhile_cons_of_neg (by simpa using ha)]
      constructor
      · intro h
        exfalso
        have hlen := intercalate_go_length a ", " rest
        have h0 : (String.intercalate.go a ", " rest).length = 0 := by
          have : ", ".intercalate (a :: rest) = String.intercalate.go a ", " rest := rfl
          rw [← this, h]
          rfl
        have hpos := (string_length_pos_iff a).mpr ha
        omega
      · intro h
        exact absurd (h a (List.mem_cons_self _ _)) ha

/-- What a snapshot of the function statistic writes: the texts of the providers in the
order of the visits, leading empty texts skipped, joined with ", "; "N/A" if that string
is empty. -/
theorem function_snapshot_value (p : perfmon_function_t) (order : List Nat)
    (dest : perfmon_stats_t) :
    p.snapshot order dest p.name
      = some (if ", ".intercalate ((p.texts order).dropWhile (fun t => decide (t = ""))) = ""
          then "N/A"
          else ", ".intercalate ((p.texts order).dropWhile (fun t => decide (t = "")))) := by
  unfold perfmon_function_t.snapshot perfmon_function_t.end_stats
  have hs : p.visit_all p.begin_stats order
      = ", ".intercalate ((p.texts order).dropWhile (fun t => decide (t = ""))) := by
    rw [function_visit_all_eq, function_texts_eq]
    exact visit_loop_of_empty _
  rw [hs]
  by_cases he : ", ".intercalate ((p.texts order).dropWhile (fun t => decide (t = ""))) = ""
  · rw [if_pos he, he]
    simp [assign_same]
  · rw [if_neg he, if_pos ((string_length_eq_zero_iff _).not.mpr he), assign_same]

theorem function_texts_mem (p : perfmon_function_t) (order : List Nat) (t : String) :
    t ∈ p.texts order ↔ ∃ c, c ∈ order ∧ ∃ f, f ∈ p.funs c ∧ f.compute_stat = t := by
  simp [perfmon_function_t.texts, List.mem_flatMap, List.mem_map]

/-- C8 (as amended): after `begin_stats` and one `visit_stats` on every context,
`end_stats` writes "N/A" under the statistic's name when no provider is live on any
context; more generally it writes "N/A" if and only if every live provider computed the
empty text or the joined texts are themselves the text "N/A". -/
theorem function_placeholder_iff (p : perfmon_function_t) (n : Nat) (order : List Nat)
    (dest : perfmon_stats_t) (horder : order.Perm (List.range n)) :
    ((∀ c, c < n → p.funs c = []) → p.snapshot order dest p.name = some "N/A")
      ∧ (p.snapshot order dest p.name = some "N/A" ↔
          (∀ c, c < n → ∀ f, f ∈ p.funs c → f.compute_stat = "")
            ∨ ", ".intercalate ((p.texts order).dropWhile (fun t => decide (t = ""))) = "N/A") := by
  have hall : (∀ t, t ∈ p.texts order → t = "")
      ↔ ∀ c, c < n → ∀ f, f ∈ p.funs c → f.compute_stat = "" := by
    constructor
    · intro h c hc f hf
      exact h _ ((function_texts_mem p order _).mpr
        ⟨c, horder.symm.subset (List.mem_range.mpr hc), f, hf, rfl⟩)
    · intro h t ht
      obtain ⟨c, hc, f, hf, hft⟩ := (function_texts_mem p order t).mp ht
      rw [← hft]
      exact h c (List.mem_range.mp (horder.subset hc)) f hf
  have hiff : p.snapshot order dest p.name = some "N/A" ↔
      (∀ c, c < n → ∀ f, f ∈ p.funs c → f.compute_stat = "")
        ∨ ", ".intercalate ((p.texts order).dropWhile (fun t => decide (t = ""))) = "N/A" := by
    rw [function_snapshot_value, ← hall, ← joined_eq_empty_iff]
    by_cases he : ", ".intercalate ((p.texts order).dropWhile (fun t => decide (t = ""))) = ""
    · simp [he]
    · simp [he]
  refine ⟨fun hnone => hiff.mpr (Or.inl fun c hc f hf => ?_), hiff⟩
  rw [hnone c hc] at hf
  exact absurd hf (List.not_mem_nil f)

/-- C8 (witness), scenario D: zero providers on all contexts give "N/A". -/
theorem function_placeholder_iff_witness :
    [1, 0].Perm (List.range 2) ∧ (∀ c, c < 2 → scenario_d.funs c = [])
      ∧ scenario_d.snapshot [1, 0] perfmon_stats_t.empty "status" = some "N/A" :=
  ⟨by decide, fun _ _ => rfl,
    (function_placeholder_iff scenario_d 2 [1, 0] perfmon_stats_t.empty (by decide)).1
      (fun _ _ => rfl)⟩

/-- C8 (counterexample): a provider is live on context 0 and computes the empty text; the
snapshot writes "N/A" although a provider is live. -/
theorem function_placeholder_counterexample :
    scenario_silent.funs 0 = [{ compute_stat := "" }]
      ∧ scenario_silent.snapshot [0, 1] perfmon_stats_t.empty "status" = some "N/A"
      ∧ ¬ (scenario_silent.snapshot [0, 1] perfmon_stats_t.empty "status" = some "N/A"
            ↔ ∀ c, c < 2 → scenario_silent.funs c = []) := by
  refine ⟨by decide, by decide, ?_⟩
  intro h
  have h0 := h.mp (by decide) 0 (by decide)
  exact absurd h0 (by decide)

/-- C9 (as amended): for every list of providers live on one context, `visit_stats`
applied to the empty state from `begin_stats` leaves the state equal to the providers'
texts, in registration order and with the leading empty texts skipped, joined by ", ";
this is the join of all the texts when the first text is not empty. -/
theorem function_visit_joins (p : perfmon_function_t) (thread : Nat) :
    p.visit_stats p.begin_stats thread
        = ", ".intercalate (((p.funs thread).map internal_function_t.compute_stat).dropWhile
            (fun t => decide (t = "")))
      ∧ (∀ t rest, (p.funs thread).map internal_function_t.compute_stat = t :: rest → t ≠ "" →
          p.visit_stats p.begin_stats thread
            = ", ".intercalate ((p.funs thread).map internal_function_t.compute_stat)) := by
  have h := visit_loop_of_empty (p.funs thread)
  refine ⟨h, fun t rest hl ht => ?_⟩
  have h2 := h
  rw [dropWhile_empty_eq_self _ t rest hl ht] at h2
  exact h2

/-- C9 (witness): the texts "a", "" and "b" on one context give "a, , b". -/
theorem function_visit_joins_witness :
    (scenario_a_silent_b.funs 0).map internal_function_t.compute_stat = ["a", "", "b"]
      ∧ ("a" : String) ≠ ""
      ∧ scenario_a_silent_b.visit_stats scenario_a_silent_b.begin_stats 0 = "a, , b" := by
  refine ⟨by decide, by decide, ?_⟩
  rw [(function_visit_joins scenario_a_silent_b 0).2 "a" ["", "b"] (by decide) (by decide)]
  decide

/-- C9 (counterexample): with the texts "" and "a" on one context `visit_stats` leaves
"a", while the two texts joined by ", " are ", a". -/
theorem function_visit_joins_counterexample :
    (scenario_silent_a.funs 0).map internal_function_t.compute_stat = ["", "a"]
      ∧ scenario_silent_a.visit_stats scenario_silent_a.begin_stats 0 = "a"
      ∧ ", ".intercalate ((scenario_silent_a.funs 0).map internal_function_t.compute_stat) = ", a"
      ∧ scenario_silent_a.visit_stats scenario_silent_a.begin_stats 0
          ≠ ", ".intercalate ((scenario_silent_a.funs 0).map internal_function_t.compute_stat) := by
  refine ⟨by decide, by decide, by decide, by decide⟩

/-- C10 (as amended): for every `n` contexts and every order in which the `n` per-context
`visit_stats` calls of one snapshot run, the value `end_stats` writes is the contexts'
provider texts taken in the order in which the visits ran (within a context in
registration order), leading empty texts skipped, joined with ", ", or "N/A" if that
string is empty; when the first text is not empty it is the join of all the texts in
visiting order, which is the context-index order when the visits run in the order
`0, 1, …, n - 1`; the texts joined are those of the providers of the contexts of `[0, n)`. -/
theorem function_snapshot_visit_order (p : perfmon_function_t) (n : Nat) (order : List Nat)
    (dest : perfmon_stats_t) (horder : order.Perm (List.range n)) :
    p.snapshot order dest p.name
        = some (if ", ".intercalate ((p.texts order).dropWhile (fun t => decide (t = ""))) = ""
            then "N/A"
            else ", ".intercalate ((p.texts order).dropWhile (fun t => decide (t = ""))))
      ∧ (∀ t rest, p.texts order = t :: rest → t ≠ "" →
          p.snapshot order dest p.name = some (", ".intercalate (p.texts order)))
      ∧ (order = List.range n → ∀ t rest, p.texts (List.range n) = t :: rest → t ≠ "" →
          p.snapshot order dest p.name = some (", ".intercalate (p.texts (List.range n))))
      ∧ (∀ t, t ∈ p.texts order ↔ ∃ c, c < n ∧ ∃ f, f ∈ p.funs c ∧ f.compute_stat = t) := by
  have hmem : ∀ t, t ∈ p.texts order ↔ ∃ c, c < n ∧ ∃ f, f ∈ p.funs c ∧ f.compute_stat = t := by
    intro t
    rw [function_texts_mem]
    constructor
    · rintro ⟨c, hc, hf⟩
      exact ⟨c, List.mem_range.mp (horder.subset hc), hf⟩
    · rintro ⟨c, hc, hf⟩
      exact ⟨c, horder.symm.subset (List.mem_range.mpr hc), hf⟩
  have h := function_snapshot_value p order dest
  have h2 : ∀ t rest, p.texts order = t :: rest → t ≠ "" →
      p.snapshot order dest p.name = some (", ".intercalate (p.texts order)) := by
    intro t rest hl ht
    rw [h, dropWhile_empty_eq_self _ t rest hl ht]
    have hne : ¬ ", ".intercalate (p.texts order) = "" := by
      intro he
      have := (joined_eq_empty_iff (p.texts order)).mp
        (by rw [dropWhile_empty_eq_self _ t rest hl ht]; exact he) t (by rw [hl]; simp)
      exact ht this
    rw [if_neg hne]
  refine ⟨h, h2, fun ho t rest hl ht => ?_, hmem⟩
  have h3 := h2 t rest (by rw [ho]; exact hl) ht
  rw [h3, ho]

/-- C10 (witness), scenario E: 2 contexts with one provider each returning "ok" give
"ok, ok". -/
theorem function_snapshot_visit_order_witness :
    [1, 0].Perm (List.range 2)
      ∧ scenario_e.snapshot [1, 0] perfmon_stats_t.empty "status" = some "ok, ok" := by
  refine ⟨by decide, ?_⟩
  have h := (function_snapshot_visit_order scenario_e 2 [1, 0] perfmon_stats_t.empty
    (by decide)).1
  have hname : scenario_e.name = "status" := rfl
  rw [hname] at h
  rw [h]
  decide

/-- C10 (counterexample): context 0 holds a provider computing "a", context 1 a provider
computing "b"; when the visit on context 1 runs before the visit on context 0, `end_stats`
writes "b, a", while the texts in context-index order joined with ", " are "a, b". -/
theorem function_snapshot_order_counterexample :
    [1, 0].Perm (List.range 2)
      ∧ scenario_ab.snapshot [1, 0] perfmon_stats_t.empty "status" = some "b, a"
      ∧ ", ".intercalate (scenario_ab.texts (List.range 2)) = "a, b"
      ∧ scenario_ab.snapshot [1, 0] perfmon_stats_t.empty "status"
          ≠ some (", ".intercalate (scenario_ab.texts (List.range 2))) := by
  refine ⟨by decide, by decide, by decide, by decide⟩

/-! ## Frame properties of `record`, `get` and `visit_stats` -/

theorem record_values_other (p : perfmon_sampler_t) (c c' : Nat) (now now2 : ticks_t)
    (v : value_t) (h : c' ≠ c) : (p.record c now now2 v).values c' = p.values c' := by
  simp [perfmon_sampler_t.record, Function.update_noteq h, expire_values_other p c c' now h]

theorem record_values_same (p : perfmon_sampler_t) (c : Nat) (now now2 : ticks_t)
    (v : value_t) :
    (p.record c now now2 v).values c
      = perfmon_sampler_t.expire_loop p.length now (p.values c)
          ++ [{ value := v, timestamp := now2 }] := by
  simp [perfmon_sampler_t.record, expire_values_same]

/-- C13: `record(v)` run on context `c` leaves the queue of every other context unchanged,
and a write through `get()` on `c` (such as an increment) changes the counter slot of `c`
only: the slot of `c` holds the value written and the slot of every other context is
unchanged. -/
theorem record_and_get_touch_own_slot (p : perfmon_sampler_t) (q : perfmon_counter_t)
    (c c' : Nat) (now now2 : ticks_t) (v : value_t) (w : Int) (h : c' ≠ c) :
    (p.record c now now2 v).values c' = p.values c'
      ∧ (q.set c w).get c = w
      ∧ (q.set c w).get c' = q.get c'
      ∧ (q.set c (wrap_int64 (q.get c + 1))).get c' = q.get c' := by
  refine ⟨record_values_other p c c' now now2 v h, ?_, ?_, ?_⟩
  · simp [perfmon_counter_t.set, perfmon_counter_t.get]
  · simp [perfmon_counter_t.set, perfmon_counter_t.get, Function.update_noteq h]
  · simp [perfmon_counter_t.set, perfmon_counter_t.get, Function.update_noteq h]

/-- C13 (witness): a record on context 0 of scenario B leaves the (empty) queue of
context 1 as it is, and a write of 6 to the slot of context 0 of a counter leaves the slot
of context 1 at 3. -/
theorem record_and_get_touch_own_slot_witness :
    (1 : Nat) ≠ 0
      ∧ (scenario_b.record 0 3000000000 3000000000 4).values 1 = []
      ∧ ((perfmon_counter_t.mk "requests" (fun c => if c = 0 then 5 else 3)).set 0 6).get 0 = 6
      ∧ ((perfmon_counter_t.mk "requests" (fun c => if c = 0 then 5 else 3)).set 0 6).get 1 = 3 := by
  have h := record_and_get_touch_own_slot scenario_b
    (perfmon_counter_t.mk "requests" (fun c => if c = 0 then 5 else 3)) 0 1 3000000000
    3000000000 4 6 (by decide)
  refine ⟨by decide, ?_, h.2.1, ?_⟩
  · rw [h.1]; rfl
  · rw [h.2.2.1]; rfl

/-! ## The order of steps in `record` -/

theorem expire_loop_append_fresh (length now : ticks_t) (q : List sample_t) (v : value_t) :
    perfmon_sampler_t.expire_loop length now (q ++ [{ value := v, timestamp := now }])
      = perfmon_sampler_t.expire_loop length now q ++ [{ value := v, timestamp := now }] := by
  induction q with
  | nil =>
    have h : ¬ now + length < now := not_lt.mpr (Nat.le_add_right now length)
    simp [perfmon_sampler_t.expire_loop, h]
  | cons s rest ih =>
    by_cases h : s.timestamp + length < now
    · simp only [List.cons_append, perfmon_sampler_t.expire_loop, if_pos h]
      exact ih
    · simp only [List.cons_append, perfmon_sampler_t.expire_loop, if_neg h]
      rfl

theorem record_spec_values_same (p : perfmon_sampler_t) (thread : Nat) (t : ticks_t)
    (v : value_t) :
    (p.record_spec thread t v).values thread
      = perfmon_sampler_t.expire_loop p.length t (p.values thread)
          ++ [{ value := v, timestamp := t }] := by
  simp [perfmon_sampler_t.record_spec, perfmon_sampler_t.expire, perfmon_sampler_t.with_queue,
    expire_loop_append_fresh]

theorem record_spec_values_other (p : perfmon_sampler_t) (thread c : Nat) (t : ticks_t)
    (v : value_t) (h : c ≠ thread) : (p.record_spec thread t v).values c = p.values c := by
  simp [perfmon_sampler_t.record_spec, perfmon_sampler_t.expire, perfmon_sampler_t.with_queue,
    Function.update_noteq h]

theorem sampler_eq_of_values (p q : perfmon_sampler_t) (hn : p.name = q.name)
    (hl : p.length = q.length) (hr : p.include_rate = q.include_rate)
    (hv : ∀ c, p.values c = q.values c) : p = q := by
  cases p
  cases q
  simp only [perfmon_sampler_t.mk.injEq]
  exact ⟨hn, hl, hr, funext hv⟩

/-- The implemented order of `record` (evict at the reading `now`, append the sample
stamped `now2`) gives the sampler of the specified order run at the reading `now2` when
eviction at `now` and at `now2` leave the same samples of the old queue. -/
theorem record_eq_record_spec (p : perfmon_sampler_t) (thread : Nat) (now now2 : ticks_t)
    (v : value_t)
    (h : perfmon_sampler_t.expire_loop p.length now (p.values thread)
      = perfmon_sampler_t.expire_loop p.length now2 (p.values thread)) :
    p.record thread now now2 v = p.record_spec thread now2 v := by
  refine sampler_eq_of_values _ _ rfl rfl rfl ?_
  intro c
  by_cases hc : c = thread
  · subst hc
    rw [record_values_same, record_spec_values_same, h]
  · rw [record_values_other p thread c now now2 v hc, record_spec_values_other p thread c now2 v hc]

/-- The queue that `record` leaves is a queue of the specified order, at some clock
reading, exactly when eviction at the two readings of `record` leaves the same samples. -/
theorem record_matches_spec_iff (p : perfmon_sampler_t) (thread : Nat) (now now2 : ticks_t)
    (v : value_t) :
    (∃ t, (p.record thread now now2 v).values thread = (p.record_spec thread t v).values thread)
      ↔ perfmon_sampler_t.expire_loop p.length now (p.values thread)
          = perfmon_sampler_t.expire_loop p.length now2 (p.values thread) := by
  constructor
  · rintro ⟨t, ht⟩
    rw [record_values_same, record_spec_values_same] at ht
    obtain ⟨hq, hlast⟩ := List.append_inj' ht rfl
    have ht2 : now2 = t := by
      have := congrArg sample_t.timestamp (List.singleton_inj.mp hlast)
      exact this
    rw [← ht2] at hq
    exact hq
  · intro h
    exact ⟨now2, by rw [record_eq_record_spec p thread now now2 v h]⟩

/-- C15 (as amended): for every queue of the calling context, value `v` and readings `now`
(taken by `expire`) and `now2` (taken for the timestamp) of the two `get_ticks()` calls of
`record(v)`, the queue after `record(v)` is the queue evicted at `now` followed by
`(v, now2)`, and the specified order of steps at a reading `t` (append `(v, t)`, then evict
the entries with `timestamp + length < t`) gives the queue evicted at `t` followed by
`(v, t)`. The implemented order gives a queue of the specified order exactly when eviction
at `now` and at `now2` leave the same samples of the old queue; the two orders then give
the same sampler, in particular whenever the two readings are equal. -/
theorem record_refines_spec_order (p : perfmon_sampler_t) (thread : Nat) (now now2 : ticks_t)
    (v : value_t) :
    (p.record thread now now2 v).values thread
        = perfmon_sampler_t.expire_loop p.length now (p.values thread)
            ++ [{ value := v, timestamp := now2 }]
      ∧ (∀ t, (p.record_spec thread t v).values thread
          = perfmon_sampler_t.expire_loop p.length t (p.values thread)
              ++ [{ value := v, timestamp := t }])
      ∧ ((∃ t, (p.record thread now now2 v).values thread
            = (p.record_spec thread t v).values thread)
          ↔ perfmon_sampler_t.expire_loop p.length now (p.values thread)
              = perfmon_sampler_t.expire_loop p.length now2 (p.values thread))
      ∧ (perfmon_sampler_t.expire_loop p.length now (p.values thread)
            = perfmon_sampler_t.expire_loop p.length now2 (p.values thread) →
          p.record thread now now2 v = p.record_spec thread now2 v)
      ∧ p.record thread now now v = p.record_spec thread now v :=
  ⟨record_values_same p thread now now2 v, fun t => record_spec_values_same p thread t v,
    record_matches_spec_iff p thread now now2 v, record_eq_record_spec p thread now now2 v,
    record_eq_record_spec p thread now now v rfl⟩

/-- C15 (witness), scenario B: `record` reads the clock at 3000000000 and at 3000000007;
no sample expires between the two readings, and the implemented order gives the sampler
of the specified order at the second reading. -/
theorem record_refines_spec_order_witness :
    perfmon_sampler_t.expire_loop scenario_b.length 3000000000 (scenario_b.values 0)
        = perfmon_sampler_t.expire_loop scenario_b.length 3000000007 (scenario_b.values 0)
      ∧ scenario_b.record 0 3000000000 3000000007 4
        = scenario_b.record_spec 0 3000000007 4
      ∧ (scenario_b.record 0 3000000000 3000000007 4).values 0
        = [⟨1, 0⟩, ⟨2, 1000000000⟩, ⟨3, 2000000000⟩, ⟨4, 3000000007⟩] :=
  ⟨rfl,
    (record_refines_spec_order scenario_b 0 3000000000 3000000007 4).2.2.2.1 rfl, rfl⟩

/-- C15 (counterexample): window 10, the queue holds one sample stamped 0, and `record(2)`
reads the clock as 10 in `expire` and as 11 for the timestamp. The implemented order
leaves the samples stamped 0 and 11; the specified order leaves the samples stamped 0 and
10 at the reading 10 and the sample stamped 11 alone at the reading 11, and at no reading
does it leave the queue of the implemented order. -/
theorem record_spec_order_counterexample :
    scenario_tick.values 0 = [⟨1, 0⟩]
      ∧ scenario_tick.length = 10
      ∧ (scenario_tick.record 0 10 11 2).values 0 = [⟨1, 0⟩, ⟨2, 11⟩]
      ∧ (scenario_tick.record_spec 0 10 2).values 0 = [⟨1, 0⟩, ⟨2, 10⟩]
      ∧ (scenario_tick.record_spec 0 11 2).values 0 = [⟨2, 11⟩]
      ∧ ¬ ∃ t, (scenario_tick.record 0 10 11 2).values 0
          = (scenario_tick.record_spec 0 t 2).values 0 := by
  refine ⟨rfl, rfl, rfl, rfl, rfl, ?_⟩
  rw [record_matches_spec_iff]
  intro h
  have hlen := congrArg List.length h
  exact absurd hlen (by decide)

/-- C16: `perfmon_counter_t::visit_stats` and `perfmon_sampler_t::visit_stats` run on
context `c` leave the entries of every other context `c'` of the state unchanged (the
counter's slot; the sampler's `values`, `counts`, `mins`, `maxes`), and the sampler's visit
leaves the queue of every other context unchanged. -/
theorem visit_stats_touches_own_slot (q : perfmon_counter_t) (data : Nat → Int)
    (p : perfmon_sampler_t) (d : perfmon_sampler_step_t) (c c' : Nat) (now : ticks_t)
    (h : c' ≠ c) :
    q.visit_stats data c c' = data c'
      ∧ (p.visit_stats d c now).2.values c' = d.values c'
      ∧ (p.visit_stats d c now).2.counts c' = d.counts c'
      ∧ (p.visit_stats d c now).2.mins c' = d.mins c'
      ∧ (p.visit_stats d c now).2.maxes c' = d.maxes c'
      ∧ (p.visit_stats d c now).1.values c' = p.values c' := by
  obtain ⟨h1, h2, h3, h4⟩ := visit_stats_frame p d c c' now h
  refine ⟨?_, h1, h2, h3, h4, ?_⟩
  · simp [perfmon_counter_t.visit_stats, Function.update_noteq h]
  · rw [visit_stats_fst, expire_values_other p c c' now h]

/-- C16 (witness), scenario B: the visit on context 0 leaves the entries of context 1 at
the content they had, and the counter's visit on context 0 leaves slot 1 at 77. -/
theorem visit_stats_touches_own_slot_witness :
    (1 : Nat) ≠ 0
      ∧ (perfmon_counter_t.mk "requests" (fun _ => 5)).visit_stats (fun _ => 77) 0 1 = 77
      ∧ (scenario_b.visit_stats scenario_uninit 0 2000000000).2.mins 1 = 7
      ∧ (scenario_b.visit_stats scenario_uninit 0 2000000000).2.counts 1 = 7 := by
  have h := visit_stats_touches_own_slot (perfmon_counter_t.mk "requests" (fun _ => 5))
    (fun _ => 77) scenario_b scenario_uninit 0 1 2000000000 (by decide)
  exact ⟨by decide, h.1, h.2.2.2.1, h.2.2.1⟩

/-! ## The entries `mins` and `maxes` of the sampler's state -/

theorem visit_body_same_slot (c : Nat) (d e : perfmon_sampler_step_t) (s : sample_t)
    (h : d.same_slot e c) :
    (perfmon_sampler_t.visit_body c d s).same_slot (perfmon_sampler_t.visit_body c e s) c := by
  obtain ⟨h1, h2, h3, h4⟩ := h
  unfold perfmon_sampler_t.visit_body perfmon_sampler_step_t.same_slot
  by_cases hc : e.counts c > 0
  · have hd : d.counts c > 0 := by rw [h2]; exact hc
    simp [hc, hd, h1, h2, h3, h4]
  · have hd : ¬ d.counts c > 0 := by rw [h2]; exact hc
    simp [hc, hd, h1, h2, h3, h4]

theorem visit_fold_same_slot (c : Nat) (l : List sample_t) (d e : perfmon_sampler_step_t)
    (h : d.same_slot e c) :
    (l.foldl (perfmon_sampler_t.visit_body c) d).same_slot
      (l.foldl (perfmon_sampler_t.visit_body c) e) c := by
  induction l generalizing d e with
  | nil => exact h
  | cons s rest ih =>
    rw [List.foldl_cons, List.foldl_cons]
    exact ih _ _ (visit_body_same_slot c d e s h)

theorem visit_body_first_same_slot (c : Nat) (d e : perfmon_sampler_step_t) (s : sample_t)
    (hv : d.values c = e.values c) (hd : d.counts c = 0) (he : e.counts c = 0) :
    (perfmon_sampler_t.visit_body c d s).same_slot (perfmon_sampler_t.visit_body c e s) c := by
  unfold perfmon_sampler_t.visit_body perfmon_sampler_step_t.same_slot
  simp [hd, he, hv]

/-- C17 (as amended): after `visit_stats` on context `c`, when the queue of `c` is not
empty after expiry the entries of the state for `c` (sum, count, min, max) are determined
by the queue alone and do not depend on what the state held before the call; when the
queue is empty after expiry (count 0) the sum and the count are set to 0 and the entries
`mins[c]` and `maxes[c]` are left as they were before the call. -/
theorem sampler_visit_min_max (p : perfmon_sampler_t) (d e : perfmon_sampler_step_t) (c : Nat)
    (now : ticks_t) :
    (perfmon_sampler_t.expire_loop p.length now (p.values c) ≠ [] →
        (p.visit_stats d c now).2.mins c = (p.visit_stats e c now).2.mins c
          ∧ (p.visit_stats d c now).2.maxes c = (p.visit_stats e c now).2.maxes c
          ∧ (p.visit_stats d c now).2.values c = (p.visit_stats e c now).2.values c
          ∧ (p.visit_stats d c now).2.counts c = (p.visit_stats e c now).2.counts c)
      ∧ (perfmon_sampler_t.expire_loop p.length now (p.values c) = [] →
          (p.visit_stats d c now).2.mins c = d.mins c
            ∧ (p.visit_stats d c now).2.maxes c = d.maxes c
            ∧ (p.visit_stats d c now).2.values c = 0
            ∧ (p.visit_stats d c now).2.counts c = 0) := by
  unfold perfmon_sampler_t.visit_stats
  simp only [expire_values_same]
  generalize perfmon_sampler_t.expire_loop p.length now (p.values c) = q
  constructor
  · intro hne
    cases q with
    | nil => exact absurd rfl hne
    | cons s rest =>
      rw [List.foldl_cons, List.foldl_cons]
      obtain ⟨h1, h2, h3, h4⟩ := visit_fold_same_slot c rest _ _
        (visit_body_first_same_slot c
          { counts := Function.update d.counts c 0, values := Function.update d.values c 0,
            mins := d.mins, maxes := d.maxes }
          { counts := Function.update e.counts c 0, values := Function.update e.values c 0,
            mins := e.mins, maxes := e.maxes } s (by simp) (by simp) (by simp))
      exact ⟨h3, h4, h1, h2⟩
  · intro hnil
    rw [hnil]
    simp

/-- C17 (witness), scenario B: the visit on context 0, whose queue holds 1, 2, 3, ends
with the same minimum and maximum from two different initial contents of the state. -/
theorem sampler_visit_min_max_witness :
    perfmon_sampler_t.expire_loop scenario_b.length 2000000000 (scenario_b.values 0) ≠ []
      ∧ (scenario_b.visit_stats scenario_uninit 0 2000000000).2.mins 0
          = (scenario_b.visit_stats scenario_uninit2 0 2000000000).2.mins 0
      ∧ (scenario_b.visit_stats scenario_uninit 0 2000000000).2.maxes 0
          = (scenario_b.visit_stats scenario_uninit2 0 2000000000).2.maxes 0 := by
  have hne : perfmon_sampler_t.expire_loop scenario_b.length 2000000000 (scenario_b.values 0)
      ≠ [] := by
    intro h
    have hlen := congrArg List.length h
    exact absurd hlen (by decide)
  have h := (sampler_visit_min_max scenario_b scenario_uninit scenario_uninit2 0
    2000000000).1 hne
  exact ⟨hne, h.1, h.2.1⟩

/-- C17 (counterexample), scenario C: the queue of context 0 is empty; after `visit_stats`
on context 0 the entry `mins[0]` is 7 from a state that held 7 and 9 from a state that held
9, and so is `maxes[0]`: with the same (empty) queue the entries depend on what the state
held before the call. -/
theorem sampler_visit_min_max_counterexample :
    scenario_c.values 0 = []
      ∧ (scenario_c.visit_stats scenario_uninit 0 5000000000).2.counts 0 = 0
      ∧ (scenario_c.visit_stats scenario_uninit 0 5000000000).2.mins 0 = 7
      ∧ (scenario_c.visit_stats scenario_uninit2 0 5000000000).2.mins 0 = 9
      ∧ (scenario_c.visit_stats scenario_uninit 0 5000000000).2.mins 0
          ≠ (scenario_c.visit_stats scenario_uninit2 0 5000000000).2.mins 0
      ∧ (scenario_c.visit_stats scenario_uninit 0 5000000000).2.maxes 0
          ≠ (scenario_c.visit_stats scenario_uninit2 0 5000000000).2.maxes 0 := by
  have h7 : (scenario_c.visit_stats scenario_uninit 0 5000000000).2.mins 0 = 7 := rfl
  have h9 : (scenario_c.visit_stats scenario_uninit2 0 5000000000).2.mins 0 = 9 := rfl
  have m7 : (scenario_c.visit_stats scenario_uninit 0 5000000000).2.maxes 0 = 7 := rfl
  have m9 : (scenario_c.visit_stats scenario_uninit2 0 5000000000).2.maxes 0 = 9 := rfl
  refine ⟨rfl, rfl, h7, h9, ?_, ?_⟩
  · rw [h7, h9]; norm_num
  · rw [m7, m9]; norm_num

theorem end_stats_loop_congr (d e : perfmon_sampler_step_t) (n : Nat)
    (h : ∀ i, i < n → d.values i = e.values i ∧ d.counts i = e.counts i
      ∧ (d.counts i ≠ 0 → d.mins i = e.mins i ∧ d.maxes i = e.maxes i)) :
    perfmon_sampler_t.end_stats_loop d n = perfmon_sampler_t.end_stats_loop e n := by
  induction n with
  | zero => rfl
  | succ k ih =>
    rw [perfmon_sampler_t.end_stats_loop, perfmon_sampler_t.end_stats_loop,
      ih (fun i hi => h i (Nat.lt_succ_of_lt hi))]
    obtain ⟨hv, hc, hm⟩ := h k (Nat.lt_succ_self k)
    unfold perfmon_sampler_t.end_stats_body
    by_cases hz : d.counts k = 0
    · have hz2 : e.counts k = 0 := by rw [← hc]; exact hz
      simp [hz, hz2, hv]
    · have hz2 : e.counts k ≠ 0 := by rw [← hc]; exact hz
      obtain ⟨hmin, hmax⟩ := hm hz
      simp [hz, hz2, hv, hc, hmin, hmax]

/-- C18: the output of `perfmon_sampler_t::end_stats` does not depend on the entries
`mins[i]` and `maxes[i]` of any context `i` whose `counts[i]` is 0: two states that agree
on all `values` and `counts`, and on `mins` and `maxes` of every context with a non-zero
count, produce the same map, in particular the same `name_avg`, `name_min`, `name_max` and
`name_persec`. -/
theorem sampler_end_stats_ignores_empty_slots (format : value_t → String)
    (ticks_to_secs : ticks_t → value_t) (p : perfmon_sampler_t) (n : Nat)
    (d e : perfmon_sampler_step_t) (dest : perfmon_stats_t)
    (h : ∀ i, i < n → d.values i = e.values i ∧ d.counts i = e.counts i
      ∧ (d.counts i ≠ 0 → d.mins i = e.mins i ∧ d.maxes i = e.maxes i)) :
    perfmon_sampler_t.end_stats format ticks_to_secs p n d dest
        = perfmon_sampler_t.end_stats format ticks_to_secs p n e dest
      ∧ perfmon_sampler_t.end_stats format ticks_to_secs p n d dest (p.name ++ "_avg")
        = perfmon_sampler_t.end_stats format ticks_to_secs p n e dest (p.name ++ "_avg")
      ∧ perfmon_sampler_t.end_stats format ticks_to_secs p n d dest (p.name ++ "_min")
        = perfmon_sampler_t.end_stats format ticks_to_secs p n e dest (p.name ++ "_min")
      ∧ perfmon_sampler_t.end_stats format ticks_to_secs p n d dest (p.name ++ "_max")
        = perfmon_sampler_t.end_stats format ticks_to_secs p n e dest (p.name ++ "_max")
      ∧ perfmon_sampler_t.end_stats format ticks_to_secs p n d dest (p.name ++ "_persec")
        = perfmon_sampler_t.end_stats format ticks_to_secs p n e dest (p.name ++ "_persec") := by
  have heq : perfmon_sampler_t.end_stats format ticks_to_secs p n d dest
      = perfmon_sampler_t.end_stats format ticks_to_secs p n e dest := by
    unfold perfmon_sampler_t.end_stats
    rw [end_stats_loop_congr d e n h]
  exact ⟨heq, by rw [heq], by rw [heq], by rw [heq], by rw [heq]⟩

/-- C18 (witness), scenario B on 2 contexts: the states left by the visit phase from two
different initial contents differ in `mins[1]` (context 1 has no sample, count 0) and
give the same output. -/
theorem sampler_end_stats_ignores_empty_slots_witness :
    (scenario_b.visit_all scenario_uninit (fun _ => 2000000000) [0, 1]).2.mins 1
        ≠ (scenario_b.visit_all scenario_uninit2 (fun _ => 2000000000) [0, 1]).2.mins 1
      ∧ perfmon_sampler_t.end_stats format_fraction ticks_to_secs_ns scenario_b 2
          (scenario_b.visit_all scenario_uninit (fun _ => 2000000000) [0, 1]).2
          perfmon_stats_t.empty
        = perfmon_sampler_t.end_stats format_fraction ticks_to_secs_ns scenario_b 2
          (scenario_b.visit_all scenario_uninit2 (fun _ => 2000000000) [0, 1]).2
          perfmon_stats_t.empty := by
  have h7 : (scenario_b.visit_all scenario_uninit (fun _ => 2000000000) [0, 1]).2.mins 1 = 7 :=
    rfl
  have h9 : (scenario_b.visit_all scenario_uninit2 (fun _ => 2000000000) [0, 1]).2.mins 1 = 9 :=
    rfl
  refine ⟨by rw [h7, h9]; norm_num, ?_⟩
  refine (sampler_end_stats_ignores_empty_slots format_fraction ticks_to_secs_ns scenario_b 2
    _ _ perfmon_stats_t.empty ?_).1
  intro i hi
  interval_cases i
  · exact ⟨rfl, rfl, fun _ => ⟨rfl, rfl⟩⟩
  · refine ⟨rfl, rfl, fun hne => ?_⟩
    exact absurd rfl hne

/-! ## The order of the timestamps in the queues -/

theorem expire_loop_sublist (length now : ticks_t) (q : List sample_t) :
    (perfmon_sampler_t.expire_loop length now q).Sublist q := by
  induction q with
  | nil => exact List.Sublist.refl _
  | cons s rest ih =>
    by_cases h : s.timestamp + length < now
    · simp only [perfmon_sampler_t.expire_loop, if_pos h]
      exact List.Sublist.cons _ ih
    · simp only [perfmon_sampler_t.expire_loop, if_neg h]
      exact List.Sublist.refl _

/-- The method `expire` keeps the queues sorted by timestamp. -/
theorem expire_keeps_sorted (p : perfmon_sampler_t) (thread : Nat) (now : ticks_t)
    (h : ∀ c, timestamps_sorted (p.values c)) :
    ∀ c, timestamps_sorted ((p.expire thread now).values c) := by
  intro c
  by_cases hc : c = thread
  · subst hc
    rw [expire_values_same]
    exact List.Pairwise.sublist (expire_loop_sublist _ _ _) (h c)
  · rw [expire_values_other p thread c now hc]
    exact h c

theorem record_keeps_sorted (p : perfmon_sampler_t) (thread : Nat) (now now2 : ticks_t)
    (v : value_t)
    (h : ∀ c, timestamps_sorted (p.values c) ∧ ∀ s, s ∈ p.values c → s.timestamp ≤ now2) :
    ∀ c, timestamps_sorted ((p.record thread now now2 v).values c)
      ∧ ∀ s, s ∈ (p.record thread now now2 v).values c → s.timestamp ≤ now2 := by
  intro c
  by_cases hc : c = thread
  · subst hc
    rw [record_values_same]
    have hsub := expire_loop_sublist p.length now (p.values c)
    refine ⟨?_, ?_⟩
    · unfold timestamps_sorted
      rw [List.pairwise_append]
      refine ⟨List.Pairwise.sublist hsub (h c).1, List.pairwise_singleton _ _, ?_⟩
      intro a ha b hb
      rw [List.mem_singleton] at hb
      rw [hb]
      exact (h c).2 a (hsub.subset ha)
    · intro s hs
      rcases List.mem_append.mp hs with h1 | h1
      · exact (h c).2 s (hsub.subset h1)
      · rw [List.mem_singleton] at h1
        rw [h1]
  · rw [record_values_other p thread c now now2 v hc]
    exact h c

theorem run_keeps_sorted (ops : List sampler_op) (p : perfmon_sampler_t)
    (hclock : clock_never_decreases ops)
    (h : ∀ c, timestamps_sorted (p.values c)
      ∧ ∀ s, s ∈ p.values c → ∀ t, t ∈ ops.flatMap sampler_op.ticks → s.timestamp ≤ t) :
    ∀ c, timestamps_sorted ((p.run ops).values c) := by
  induction ops generalizing p with
  | nil => exact fun c => (h c).1
  | cons op rest ih =>
    have hstep : p.run (op :: rest) = (sampler_op.apply p op).run rest := rfl
    rw [hstep]
    unfold clock_never_decreases at hclock
    rw [List.flatMap_cons, List.pairwise_append] at hclock
    obtain ⟨hop, hrest, hcross⟩ := hclock
    apply ih _ hrest
    have hold : ∀ c, ∀ s, s ∈ p.values c → ∀ t, t ∈ rest.flatMap sampler_op.ticks →
        s.timestamp ≤ t := by
      intro c s hs t ht
      exact (h c).2 s hs t (by rw [List.flatMap_cons]; exact List.mem_append_right _ ht)
    cases op with
    | record thread now now2 v =>
      have hnow2 : ∀ c, timestamps_sorted (p.values c)
          ∧ ∀ s, s ∈ p.values c → s.timestamp ≤ now2 := fun c =>
        ⟨(h c).1, fun s hs => (h c).2 s hs now2 (by simp [sampler_op.ticks])⟩
      intro c
      have hr := record_keeps_sorted p thread now now2 v hnow2 c
      refine ⟨hr.1, fun s hs t ht => ?_⟩
      exact le_trans (hr.2 s hs) (hcross now2 (by simp [sampler_op.ticks]) t ht)
    | expire thread now =>
      intro c
      by_cases hc : c = thread
      · subst hc
        simp only [sampler_op.apply]
        rw [expire_values_same]
        exact ⟨List.Pairwise.sublist (expire_loop_sublist _ _ _) (h c).1,
          fun s hs t ht => hold c s ((expire_loop_sublist _ _ _).subset hs) t ht⟩
      · simp only [sampler_op.apply]
        rw [expire_values_other p thread c now hc]
        exact ⟨(h c).1, hold c⟩
    | visit_stats d thread now =>
      intro c
      by_cases hc : c = thread
      · subst hc
        simp only [sampler_op.apply, visit_stats_fst]
        rw [expire_values_same]
        exact ⟨List.Pairwise.sublist (expire_loop_sublist _ _ _) (h c).1,
          fun s hs t ht => hold c s ((expire_loop_sublist _ _ _).subset hs) t ht⟩
      · simp only [sampler_op.apply, visit_stats_fst]
        rw [expire_values_other p thread c now hc]
        exact ⟨(h c).1, hold c⟩

/-- C19: if the clock `get_ticks` never decreases, every per-context queue of a sampler
has non-decreasing timestamps from front to back in every reachable state: the property
holds for the empty queues of a new sampler and after any sequence of `record`, `expire`
and `visit_stats` operations on it; `expire` and `visit_stats` preserve it outright and
`record` preserves it when no timestamp in the queues is above the reading it stamps. -/
theorem sampler_queues_stay_sorted (name : String) (length : ticks_t) (include_rate : Bool)
    (ops : List sampler_op) (hclock : clock_never_decreases ops) :
    (∀ c, timestamps_sorted ((perfmon_sampler_t.new name length include_rate).values c))
      ∧ (∀ c, timestamps_sorted
          (((perfmon_sampler_t.new name length include_rate).run ops).values c))
      ∧ (∀ (p : perfmon_sampler_t) (thread : Nat) (now : ticks_t),
          (∀ c, timestamps_sorted (p.values c)) →
          ∀ c, timestamps_sorted ((p.expire thread now).values c))
      ∧ (∀ (p : perfmon_sampler_t) (d : perfmon_sampler_step_t) (thread : Nat) (now : ticks_t),
          (∀ c, timestamps_sorted (p.values c)) →
          ∀ c, timestamps_sorted ((p.visit_stats d thread now).1.values c))
      ∧ (∀ (p : perfmon_sampler_t) (thread : Nat) (now now2 : ticks_t) (v : value_t),
          (∀ c, timestamps_sorted (p.values c)) →
          (∀ c s, s ∈ p.values c → s.timestamp ≤ now2) →
          ∀ c, timestamps_sorted ((p.record thread now now2 v).values c)) := by
  have hnew : ∀ c, timestamps_sorted ((perfmon_sampler_t.new name length include_rate).values c) :=
    fun _ => List.Pairwise.nil
  refine ⟨hnew, ?_, ?_, ?_, ?_⟩
  · exact run_keeps_sorted ops _ hclock
      (fun c => ⟨hnew c, fun s hs => absurd hs (List.not_mem_nil s)⟩)
  · exact fun p thread now hp => expire_keeps_sorted p thread now hp
  · intro p d thread now hp c
    rw [visit_stats_fst]
    exact expire_keeps_sorted p thread now hp c
  · intro p thread now now2 v hp hle c
    exact (record_keeps_sorted p thread now now2 v (fun c => ⟨hp c, hle c⟩) c).1

/-- C19 (witness): a run with non-decreasing clock readings; every queue of the resulting
sampler is sorted, and the queue of context 0 holds the one sample that is still in the
window. -/
theorem sampler_queues_stay_sorted_witness :
    clock_never_decreases scenario_ops
      ∧ (∀ c, timestamps_sorted (((perfmon_sampler_t.new "lat" 10 true).run scenario_ops).values c))
      ∧ ((perfmon_sampler_t.new "lat" 10 true).run scenario_ops).values 0 = [⟨2, 6⟩]
      ∧ ((perfmon_sampler_t.new "lat" 10 true).run scenario_ops).values 1 = [⟨3, 8⟩] := by
  have hclock : clock_never_decreases scenario_ops := by
    unfold clock_never_decreases
    decide
  exact ⟨hclock, (sampler_queues_stay_sorted "lat" 10 true scenario_ops hclock).2.1, rfl, rfl⟩

/-! ## Providers registered during a snapshot -/

theorem register_funs_same (p : perfmon_function_t) (c : Nat) (f : internal_function_t) :
    (p.register c f).funs c = p.funs c ++ [f] := by
  simp [perfmon_function_t.register]

theorem register_funs_other (p : perfmon_function_t) (c c' : Nat) (f : internal_function_t)
    (h : c' ≠ c) : (p.register c f).funs c' = p.funs c' := by
  simp [perfmon_function_t.register, Function.update_noteq h]

theorem function_visit_all_congr (p q : perfmon_function_t) (order : List Nat) (s : String)
    (h : ∀ c, c ∈ order → p.funs c = q.funs c) : p.visit_all s order = q.visit_all s order := by
  induction order generalizing s with
  | nil => rfl
  | cons a rest ih =>
    have hp : p.visit_all s (a :: rest) = p.visit_all (p.visit_stats s a) rest := rfl
    have hq : q.visit_all s (a :: rest) = q.visit_all (q.visit_stats s a) rest := rfl
    have ha : p.visit_stats s a = q.visit_stats s a := by
      unfold perfmon_function_t.visit_stats
      rw [h a (List.mem_cons_self _ _)]
    rw [hp, hq, ha]
    exact ih _ (fun c hc => h c (List.mem_cons_of_mem _ hc))

theorem function_visit_all_append (p : perfmon_function_t) (a b : List Nat) (s : String) :
    p.visit_all s (a ++ b) = p.visit_all (p.visit_all s a) b := by
  unfold perfmon_function_t.visit_all
  rw [List.foldl_append]

/-- C14 (as amended): if a provider is registered on context `c` after `begin_stats` of a
snapshot has run but before that snapshot's `visit_stats` runs on `c`, the snapshot is the
one of the statistic with the provider registered from the start, so the provider's text
is among the texts that `end_stats` joins; if the provider is registered after the
snapshot's `visit_stats` has run on `c`, the value is the one of the statistic without the
provider. -/
theorem function_register_during_snapshot (p : perfmon_function_t) (before after : List Nat)
    (c : Nat) (f : internal_function_t) (dest : perfmon_stats_t) :
    (c ∉ before →
        p.snapshot_with_register before c f after dest
          = (p.register c f).snapshot (before ++ after) dest)
      ∧ (c ∉ before → c ∈ after →
          f.compute_stat ∈ (p.register c f).texts (before ++ after))
      ∧ (c ∉ after →
          p.snapshot_with_register before c f after dest p.name
            = p.snapshot (before ++ after) dest p.name) := by
  refine ⟨fun hb => ?_, fun _ ha => ?_, fun ha => ?_⟩
  · unfold perfmon_function_t.snapshot_with_register perfmon_function_t.snapshot
    rw [function_visit_all_append]
    have h1 : (p.register c f).visit_all (p.register c f).begin_stats before
        = p.visit_all p.begin_stats before :=
      function_visit_all_congr _ _ before _
        (fun c' hc' => register_funs_other p c c' f (fun h => hb (h ▸ hc')))
    rw [h1]
  · rw [function_texts_mem]
    exact ⟨c, List.mem_append_right _ ha, f, by rw [register_funs_same]; simp, rfl⟩
  · unfold perfmon_function_t.snapshot_with_register perfmon_function_t.snapshot
    rw [function_visit_all_append]
    have h1 : (p.register c f).visit_all (p.visit_all p.begin_stats before) after
        = p.visit_all (p.visit_all p.begin_stats before) after :=
      function_visit_all_congr _ _ after _
        (fun c' hc' => register_funs_other p c c' f (fun h => ha (h ▸ hc')))
    rw [h1]
    unfold perfmon_function_t.end_stats
    have hname : (p.register c f).name = p.name := rfl
    rw [hname]

/-- C14 (witness): on scenario E a provider computing "late" is registered on context 0
after `begin_stats` and the visit on context 1, before the visit on context 0: the value
is "ok, ok, late". -/
theorem function_register_during_snapshot_witness :
    0 ∉ [1] ∧ 0 ∈ [0]
      ∧ scenario_e.snapshot_with_register [1] 0 { compute_stat := "late" } [0]
          perfmon_stats_t.empty "status" = some "ok, ok, late" := by
  refine ⟨by decide, by decide, ?_⟩
  rw [(function_register_during_snapshot scenario_e [1] [0] 0 { compute_stat := "late" }
    perfmon_stats_t.empty).1 (by decide)]
  decide

/-- C14 (counterexample): no provider is registered when `begin_stats` runs; a provider
computing "late" is then registered on context 0, before `visit_stats` runs on context 0;
`end_stats` writes "late", the provider's text. -/
theorem function_register_counterexample :
    scenario_d.funs 0 = []
      ∧ scenario_d.snapshot_with_register [] 0 { compute_stat := "late" } [0, 1]
          perfmon_stats_t.empty "status" = some "late"
      ∧ scenario_d.snapshot [0, 1] perfmon_stats_t.empty "status" = some "N/A" := by
  refine ⟨by decide, by decide, by decide⟩

/-! ## `perfmon_get_stats`: the map it leaves -/

theorem perfmon_begin_stats_owns (env : perfmon_env) (i : Nat) (p : perfmon_t) :
    p.owns (p.begin_stats env i) := by
  cases p <;> exact True.intro

theorem perfmon_begin_loop_owns (env : perfmon_env) (vars : List perfmon_t) (i : Nat) :
    List.Forall₂ perfmon_t.owns vars (perfmon_begin_loop env i vars) := by
  induction vars generalizing i with
  | nil => exact List.Forall₂.nil
  | cons p rest ih => exact List.Forall₂.cons (perfmon_begin_stats_owns env i p) (ih (i + 1))

theorem perfmon_visit_stats_owns (env : perfmon_env) (i thread : Nat) (p : perfmon_t)
    (d : perfmon_data) (h : p.owns d) :
    ∃ p1 d1, p.visit_stats env i thread d = some (p1, d1) ∧ p1.owns d1 ∧ p1.keys = p.keys := by
  cases p with
  | counter q =>
    cases d with
    | counter data => exact ⟨_, _, rfl, True.intro, rfl⟩
    | sampler e => exact absurd h id
    | function s => exact absurd h id
  | sampler q =>
    cases d with
    | counter data => exact absurd h id
    | sampler e =>
      refine ⟨_, _, rfl, True.intro, ?_⟩
      simp only [perfmon_t.keys, visit_stats_fst]
      rfl
    | function s => exact absurd h id
  | function q =>
    cases d with
    | counter data => exact absurd h id
    | sampler e => exact absurd h id
    | function s => exact ⟨_, _, rfl, True.intro, rfl⟩

theorem co_perfmon_visit_owns (env : perfmon_env) (thread : Nat) (vars : List perfmon_t)
    (data : List perfmon_data) (i : Nat) (h : List.Forall₂ perfmon_t.owns vars data) :
    ∃ vars1 data1, co_perfmon_visit env thread i vars data = some (vars1, data1)
      ∧ List.Forall₂ perfmon_t.owns vars1 data1
      ∧ vars1.map perfmon_t.keys = vars.map perfmon_t.keys := by
  induction h generalizing i with
  | nil => exact ⟨[], [], rfl, List.Forall₂.nil, rfl⟩
  | cons hpd _ ih =>
    obtain ⟨p1, d1, hv, ho, hk⟩ := perfmon_visit_stats_owns env i thread _ _ hpd
    obtain ⟨rest1, drest1, hr, hro, hrk⟩ := ih (i + 1)
    refine ⟨p1 :: rest1, d1 :: drest1, ?_, List.Forall₂.cons ho hro, ?_⟩
    · simp only [co_perfmon_visit, hv, hr]
    · simp only [List.map_cons, hk, hrk]

theorem perfmon_visit_phase_owns (env : perfmon_env) (order : List Nat) (vars : List perfmon_t)
    (data : List perfmon_data) (h : List.Forall₂ perfmon_t.owns vars data) :
    ∃ vars1 data1, perfmon_visit_phase env order vars data = some (vars1, data1)
      ∧ List.Forall₂ perfmon_t.owns vars1 data1
      ∧ vars1.map perfmon_t.keys = vars.map perfmon_t.keys := by
  induction order generalizing vars data with
  | nil => exact ⟨vars, data, rfl, h, rfl⟩
  | cons thread rest ih =>
    obtain ⟨v1, d1, hc, ho, hk⟩ := co_perfmon_visit_owns env thread vars data 0 h
    obtain ⟨v2, d2, hp, ho2, hk2⟩ := ih v1 d1 ho
    refine ⟨v2, d2, ?_, ho2, hk2.trans hk⟩
    simp only [perfmon_visit_phase, hc, hp]

/-- The `end_stats` of a variable on a state of its own class: under each of its keys it
writes a value that does not depend on the destination, and it leaves every other entry of
the destination as it is. -/
theorem perfmon_end_stats_spec (env : perfmon_env) (p : perfmon_t) (d : perfmon_data)
    (dest : perfmon_stats_t) (h : p.owns d) :
    ∃ out, p.end_stats env d dest = some out
      ∧ (∀ k, k ∈ p.keys → out k = p.written env d k ∧ ∃ v, p.written env d k = some v)
      ∧ (∀ k, k ∉ p.keys → out k = dest k) := by
  cases p with
  | counter q =>
    cases d with
    | counter data =>
      refine ⟨_, rfl, ?_, ?_⟩
      · intro k hk
        simp only [perfmon_t.keys, List.mem_singleton] at hk
        subst hk
        simp [perfmon_t.written, perfmon_t.end_stats, perfmon_counter_t.end_stats, assign_same]
      · intro k hk
        simp only [perfmon_t.keys, List.mem_singleton] at hk
        simp [perfmon_counter_t.end_stats, assign_other _ _ _ _ hk]
    | sampler e => exact absurd h id
    | function s => exact absurd h id
  | sampler q =>
    cases d with
    | counter data => exact absurd h id
    | sampler e =>
      refine ⟨_, rfl, ?_, ?_⟩
      · intro k hk
        simp only [perfmon_t.keys, List.mem_append, List.mem_cons, List.mem_singleton,
          List.not_mem_nil, or_false] at hk
        rcases hk with (hk | hk | hk) | hk
        · subst hk
          simp only [perfmon_t.written, perfmon_t.end_stats, sampler_end_stats_avg]
          exact ⟨trivial, _, rfl⟩
        · subst hk
          simp only [perfmon_t.written, perfmon_t.end_stats, sampler_end_stats_min]
          exact ⟨trivial, _, rfl⟩
        · subst hk
          simp only [perfmon_t.written, perfmon_t.end_stats, sampler_end_stats_max]
          exact ⟨trivial, _, rfl⟩
        · by_cases hr : q.include_rate = true
          · rw [if_pos hr, List.mem_singleton] at hk
            subst hk
            simp only [perfmon_t.written, perfmon_t.end_stats, sampler_end_stats_persec,
              if_pos hr]
            exact ⟨trivial, _, rfl⟩
          · rw [if_neg hr] at hk
            exact absurd hk (List.not_mem_nil k)
      · intro k hk
        simp only [perfmon_t.keys, List.mem_append, List.mem_cons, List.mem_singleton,
          List.not_mem_nil, or_false, not_or] at hk
        obtain ⟨⟨h1, h2, h3⟩, h4⟩ := hk
        by_cases hr : q.include_rate = true
        · rw [if_pos hr, List.mem_singleton] at h4
          exact sampler_end_stats_other _ _ q _ e dest k h1 h2 h3 h4
        · by_cases h5 : k = q.name ++ "_persec"
          · subst h5
            rw [sampler_end_stats_persec, if_neg hr]
          · exact sampler_end_stats_other _ _ q _ e dest k h1 h2 h3 h5
    | function s => exact absurd h id
  | function q =>
    cases d with
    | counter data => exact absurd h id
    | sampler e => exact absurd h id
    | function s =>
      refine ⟨_, rfl, ?_, ?_⟩
      · intro k hk
        simp only [perfmon_t.keys, List.mem_singleton] at hk
        subst hk
        by_cases hs : s.length = 0 <;>
          simp [perfmon_t.written, perfmon_t.end_stats, perfmon_function_t.end_stats, hs,
            assign_same]
      · intro k hk
        simp only [perfmon_t.keys, List.mem_singleton] at hk
        by_cases hs : s.length = 0 <;>
          simp [perfmon_function_t.end_stats, hs, assign_other _ _ _ _ hk]

theorem perfmon_end_loop_total (env : perfmon_env) (vars : List perfmon_t)
    (data : List perfmon_data) (dest : perfmon_stats_t)
    (h : List.Forall₂ perfmon_t.owns vars data) :
    ∃ out, perfmon_end_loop env vars data dest = some out
      ∧ ∀ k, (∀ p, p ∈ vars → k ∉ p.keys) → out k = dest k := by
  induction h generalizing dest with
  | nil => exact ⟨dest, rfl, fun _ _ => rfl⟩
  | cons hpd _ ih =>
    obtain ⟨out0, h0, _, hother⟩ := perfmon_end_stats_spec env _ _ dest hpd
    obtain ⟨out, hout, hk⟩ := ih out0
    refine ⟨out, ?_, fun k hnone => ?_⟩
    · simp only [perfmon_end_loop, h0, hout]
    · rw [hk k (fun p hp => hnone p (List.mem_cons_of_mem _ hp))]
      exact hother k (hnone _ (List.mem_cons_self _ _))

/-- The `end_stats` loop: the entry under a key `k` is the value written by the last
variable of the list that writes under `k`. -/
theorem perfmon_end_loop_last_writer (env : perfmon_env) (vars : List perfmon_t)
    (data : List perfmon_data) (dest : perfmon_stats_t) (k : String) (j : Nat) (p : perfmon_t)
    (d : perfmon_data) (h : List.Forall₂ perfmon_t.owns vars data)
    (hj : vars[j]? = some p) (hd : data[j]? = some d) (hk : k ∈ p.keys)
    (hlast : ∀ (j' : Nat) (p' : perfmon_t), j < j' → vars[j']? = some p' → k ∉ p'.keys) :
    ∃ out, perfmon_end_loop env vars data dest = some out ∧ out k = p.written env d k := by
  induction h generalizing dest j with
  | nil => simp at hj
  | @cons p0 d0 rest drest hpd hrest ih =>
    obtain ⟨out0, h0, hown, _⟩ := perfmon_end_stats_spec env p0 d0 dest hpd
    cases j with
    | zero =>
      simp only [List.getElem?_cons_zero, Option.some.injEq] at hj hd
      subst hj
      subst hd
      obtain ⟨out, hout, hsame⟩ := perfmon_end_loop_total env rest drest out0 hrest
      refine ⟨out, ?_, ?_⟩
      · simp only [perfmon_end_loop, h0, hout]
      · rw [hsame k ?_]
        · exact (hown k hk).1
        · intro p' hp'
          obtain ⟨m, hm⟩ := List.getElem?_of_mem hp'
          exact hlast (m + 1) p' (Nat.succ_pos m) (by simpa using hm)
    | succ j1 =>
      simp only [List.getElem?_cons_succ] at hj hd
      obtain ⟨out, hout, hval⟩ := ih out0 j1 hj hd
        (fun j' p' hlt hp' => hlast (j' + 1) p' (Nat.succ_lt_succ hlt) (by simpa using hp'))
      exact ⟨out, by simp only [perfmon_end_loop, h0, hout], hval⟩

theorem owns_getElem? (vars : List perfmon_t) (data : List perfmon_data)
    (h : List.Forall₂ perfmon_t.owns vars data) (j : Nat) (p : perfmon_t)
    (hj : vars[j]? = some p) : ∃ d, data[j]? = some d ∧ p.owns d := by
  induction h generalizing j with
  | nil => simp at hj
  | cons hpd _ ih =>
    cases j with
    | zero =>
      simp only [List.getElem?_cons_zero, Option.some.injEq] at hj
      subst hj
      exact ⟨_, List.getElem?_cons_zero, hpd⟩
    | succ j1 =>
      simp only [List.getElem?_cons_succ] at hj ⊢
      exact ih j1 hj

/-- C12: when several registered statistics write the same output key `k` in one snapshot
(for example two counters with the same name), `perfmon_get_stats` returns and the output
map holds under `k` the value written by the statistic that is last in registry order
among those that write `k`; that value does not depend on the destination map, so a value
already present in the destination under `k` is overwritten, as is the value written by
any earlier statistic. -/
theorem perfmon_get_stats_last_writer_wins (env : perfmon_env) (vars : List perfmon_t)
    (order : List Nat) (dest : perfmon_stats_t) (k : String) (j : Nat) (p : perfmon_t)
    (hj : vars[j]? = some p) (hk : k ∈ p.keys)
    (hlast : ∀ (j' : Nat) (p' : perfmon_t), j < j' → vars[j']? = some p' → k ∉ p'.keys) :
    ∃ vars1 data1 out p1 d1,
      perfmon_visited env vars order = some (vars1, data1)
        ∧ perfmon_get_stats env vars order dest = some (vars1, out)
        ∧ vars1[j]? = some p1 ∧ data1[j]? = some d1 ∧ p1.keys = p.keys
        ∧ (∃ v, p1.written env d1 k = some v)
        ∧ out k = p1.written env d1 k := by
  obtain ⟨vars1, data1, hvis, hown, hkeys⟩ := perfmon_visit_phase_owns env order vars
    (perfmon_begin_loop env 0 vars) (perfmon_begin_loop_owns env vars 0)
  have hkeyj : ∀ (j' : Nat) (q : perfmon_t), vars[j']? = some q →
      ∃ q1, vars1[j']? = some q1 ∧ q1.keys = q.keys := by
    intro j' q hq
    have h1 : (vars1.map perfmon_t.keys)[j']? = some q.keys := by
      rw [hkeys, List.getElem?_map, hq]
      rfl
    rw [List.getElem?_map] at h1
    cases hq1 : vars1[j']? with
    | none => rw [hq1] at h1; simp at h1
    | some q1 =>
      rw [hq1] at h1
      exact ⟨q1, rfl, by simpa using h1⟩
  have hkeyj' : ∀ (j' : Nat) (q1 : perfmon_t), vars1[j']? = some q1 →
      ∃ q, vars[j']? = some q ∧ q1.keys = q.keys := by
    intro j' q1 hq1
    have h1 : (vars.map perfmon_t.keys)[j']? = some q1.keys := by
      rw [← hkeys, List.getElem?_map, hq1]
      rfl
    rw [List.getElem?_map] at h1
    cases hq : vars[j']? with
    | none => rw [hq] at h1; simp at h1
    | some q =>
      rw [hq] at h1
      exact ⟨q, rfl, by simpa using h1.symm⟩
  obtain ⟨p1, hp1, hp1k⟩ := hkeyj j p hj
  obtain ⟨d1, hd1, hown1⟩ := owns_getElem? vars1 data1 hown j p1 hp1
  have hlast1 : ∀ (j' : Nat) (p' : perfmon_t), j < j' → vars1[j']? = some p' → k ∉ p'.keys := by
    intro j' p' hlt hp'
    obtain ⟨q, hq, hqk⟩ := hkeyj' j' p' hp'
    rw [hqk]
    exact hlast j' q hlt hq
  obtain ⟨out, hout, hval⟩ := perfmon_end_loop_last_writer env vars1 data1 dest k j p1 d1 hown
    hp1 hd1 (by rw [hp1k]; exact hk) hlast1
  have hsome : ∃ v, p1.written env d1 k = some v := by
    obtain ⟨_, _, hw, _⟩ := perfmon_end_stats_spec env p1 d1 dest hown1
    exact (hw k (by rw [hp1k]; exact hk)).2
  refine ⟨vars1, data1, out, p1, d1, ?_, ?_, hp1, hd1, hp1k, hsome, hval⟩
  · unfold perfmon_visited
    exact hvis
  · unfold perfmon_get_stats perfmon_visited
    simp only [hvis, hout]

/-- C12 (witness): the registry holds two counters named "requests" (sums 8 and 2) with a
sampler between them, and the destination already holds "old" under "requests"; after
`perfmon_get_stats` the map holds "2", the value of the later counter. -/
theorem perfmon_get_stats_last_writer_wins_witness :
    scenario_registry[2]?
        = some (perfmon_t.counter { name := "requests", values := fun _ => 1 })
      ∧ "requests"
        ∈ (perfmon_t.counter { name := "requests", values := fun _ => 1 }).keys
      ∧ (∃ vars1 out, perfmon_get_stats scenario_env scenario_registry [1, 0]
            (perfmon_stats_t.empty.assign "requests" "old") = some (vars1, out)
          ∧ ∃ v, out "requests" = some v)
      ∧ Option.map (fun r => r.2 "requests")
          (perfmon_get_stats scenario_env scenario_registry [1, 0]
            (perfmon_stats_t.empty.assign "requests" "old")) = some (some "2") := by
  have hj : scenario_registry[2]?
      = some (perfmon_t.counter { name := "requests", values := fun _ => 1 }) := rfl
  have hk : "requests"
      ∈ (perfmon_t.counter { name := "requests", values := fun _ => 1 }).keys := by
    simp [perfmon_t.keys]
  obtain ⟨vars1, _, out, _, _, _, hget, _, _, _, ⟨v, hv⟩, hval⟩ :=
    perfmon_get_stats_last_writer_wins scenario_env scenario_registry [1, 0]
      (perfmon_stats_t.empty.assign "requests" "old") "requests" 2 _ hj hk
      (by
        intro j' p' hlt hp'
        have hnone : scenario_registry[j']? = none :=
          List.getElem?_eq_none (by simp [scenario_registry]; omega)
        rw [hnone] at hp'
        exact absurd hp' (by simp))
  exact ⟨hj, hk, ⟨vars1, out, hget, v, by rw [hval, hv]⟩, rfl⟩

/-! ## `perfmon_get_stats`: the order of the calls -/

theorem filter_update_same (n k a : Nat) (cnt : Nat → Nat)
    (h : a < n → (k < cnt a ↔ k < cnt a + 1)) :
    (Finset.range n).filter (fun c => k < Function.update cnt a (cnt a + 1) c)
      = (Finset.range n).filter (fun c => k < cnt c) := by
  ext c
  simp only [Finset.mem_filter, Finset.mem_range]
  by_cases hc : c = a
  · subst hc
    simp only [Function.update_same]
    constructor
    · rintro ⟨hn, hk⟩
      exact ⟨hn, (h hn).mpr hk⟩
    · rintro ⟨hn, hk⟩
      exact ⟨hn, (h hn).mp hk⟩
  · rw [Function.update_noteq hc]

theorem filter_update_new (n k a : Nat) (cnt : Nat → Nat) (ha : a < n) (h : cnt a = k) :
    ((Finset.range n).filter (fun c => k < Function.update cnt a (cnt a + 1) c)).card
      = ((Finset.range n).filter (fun c => k < cnt c)).card + 1 := by
  have hins : (Finset.range n).filter (fun c => k < Function.update cnt a (cnt a + 1) c)
      = insert a ((Finset.range n).filter (fun c => k < cnt c)) := by
    ext c
    simp only [Finset.mem_filter, Finset.mem_range, Finset.mem_insert]
    by_cases hc : c = a
    · subst hc
      simp only [Function.update_same, true_or, iff_true]
      exact ⟨ha, by omega⟩
    · rw [Function.update_noteq hc]
      simp [hc]
  rw [hins, Finset.card_insert_of_not_mem]
  simp only [Finset.mem_filter, Finset.mem_range, not_and]
  intro _
  omega

theorem end_calls_eq {ν σ : Type} (begin : ν → σ) (pre rest : List ν) :
    perfmon_end_calls ((pre ++ rest).map begin) pre.length rest
      = rest.map (fun p => (perfmon_call.end_stats p (some (begin p)) : perfmon_call ν σ)) := by
  induction rest generalizing pre with
  | nil => rfl
  | cons p tail ih =>
    have hget : ((pre ++ p :: tail).map begin)[pre.length]? = some (begin p) := by
      rw [List.getElem?_map, List.getElem?_append_right (Nat.le_refl _), Nat.sub_self,
        List.getElem?_cons_zero]
      rfl
    have htail := ih (pre ++ [p])
    simp only [List.append_assoc, List.singleton_append, List.length_append,
      List.length_singleton] at htail
    simp only [perfmon_end_calls, hget, htail, List.map_cons]

/-- One step of a coroutine takes the state reached after `cnt` steps to the state reached
after one more step of context `a`. -/
theorem visit_step_reflects {ν σ : Type} (vars : List ν) (begin : ν → σ) (n : Nat)
    (cnt : Nat → Nat) (st : visit_phase_t ν σ) (a : Nat)
    (h : st.reflects vars begin n cnt) :
    (co_perfmon_visit_step vars (vars.map begin) n st a).reflects vars begin n
      (Function.update cnt a (cnt a + 1)) := by
  obtain ⟨hi, hf, hn, visits, hcalls, hfilter, hshape⟩ := h
  unfold co_perfmon_visit_step
  by_cases hcond : a < n ∧ st.finished a = false
  · rw [if_pos hcond]
    obtain ⟨han, hfa⟩ := hcond
    have hle : cnt a ≤ vars.length := by
      by_contra hc
      have := (hf a han).mpr (by omega)
      rw [hfa] at this
      exact Bool.noConfusion this
    have hia : st.i a = cnt a := by
      rw [hi a han]
      exact min_eq_left hle
    cases hget : vars[st.i a]? with
    | some p =>
      have hlt : st.i a < vars.length := by
        by_contra hc
        rw [List.getElem?_eq_none (by omega)] at hget
        exact Option.noConfusion hget
      have hdata : (vars.map begin)[st.i a]? = some (begin p) := by
        rw [List.getElem?_map, hget]
        rfl
      simp only [hdata]
      refine ⟨?_, ?_, ?_, visits ++ [perfmon_call.visit_stats p (some (begin p)) a], ?_, ?_, ?_⟩
      · intro c hc
        by_cases hca : c = a
        · subst hca
          simp only [Function.update_same]
          omega
        · simp only [Function.update_noteq hca]
          exact hi c hc
      · intro c hc
        by_cases hca : c = a
        · subst hca
          simp only [Function.update_same]
          rw [hfa]
          constructor
          · intro hfalse
            exact Bool.noConfusion hfalse
          · intro hk
            omega
        · simp only [Function.update_noteq hca]
          exact hf c hc
      · show st.notified = _
        rw [hn, filter_update_same n vars.length a cnt (fun _ => by omega)]
      · show st.calls ++ _ = _
        rw [hcalls, List.append_assoc]
      · intro c hc
        by_cases hca : c = a
        · subst hca
          simp only [Function.update_same, List.filter_append, hfilter c hc]
          have htake : vars.take (st.i c + 1) = vars.take (st.i c) ++ [p] := by
            rw [List.take_succ, hget]
            rfl
          rw [htake, List.map_append]
          simp [perfmon_call.on_thread]
        · simp only [Function.update_noteq hca, List.filter_append, hfilter c hc]
          have hne : ¬ a = c := fun h => hca h.symm
          simp [perfmon_call.on_thread, hne]
      · intro e he
        rcases List.mem_append.mp he with h1 | h1
        · exact hshape e h1
        · rw [List.mem_singleton] at h1
          exact ⟨p, a, han, h1⟩
    | none =>
      have hge : vars.length ≤ st.i a := by
        by_contra hc
        have hlt : st.i a < vars.length := by omega
        rw [List.getElem?_eq_getElem hlt] at hget
        exact Option.noConfusion hget
      have hcnt : cnt a = vars.length := by omega
      refine ⟨?_, ?_, ?_, visits, hcalls, hfilter, hshape⟩
      · intro c hc
        show st.i c = _
        by_cases hca : c = a
        · subst hca
          simp only [Function.update_same]
          omega
        · simp only [Function.update_noteq hca]
          exact hi c hc
      · intro c hc
        show (Function.update st.finished a true) c = true ↔ _
        by_cases hca : c = a
        · subst hca
          simp only [Function.update_same, true_iff]
          omega
        · simp only [Function.update_noteq hca]
          exact hf c hc
      · show st.notified + 1 = _
        rw [hn, filter_update_new n vars.length a cnt han hcnt]
  · rw [if_neg hcond]
    have hover : a < n → vars.length < cnt a := by
      intro han
      have hfin : st.finished a = true := by
        cases hb : st.finished a with
        | true => rfl
        | false => exact absurd ⟨han, hb⟩ hcond
      exact (hf a han).mp hfin
    have hsame : a < n → (vars.length < cnt a ↔ vars.length < cnt a + 1) := by
      intro han
      have := hover han
      constructor <;> intro _ <;> omega
    refine ⟨?_, ?_, ?_, visits, hcalls, hfilter, hshape⟩
    · intro c hc
      by_cases hca : c = a
      · subst hca
        simp only [Function.update_same]
        have := hi c hc
        have := hover hc
        omega
      · simp only [Function.update_noteq hca]
        exact hi c hc
    · intro c hc
      by_cases hca : c = a
      · subst hca
        simp only [Function.update_same]
        rw [hf c hc]
        exact hsame hc
      · simp only [Function.update_noteq hca]
        exact hf c hc
    · rw [hn, filter_update_same n vars.length a cnt hsame]

/-- The state of the visit phase after the steps `sched`: every context `c` has been given
`sched.count c` steps. -/
theorem visit_run_reflects {ν σ : Type} (vars : List ν) (begin : ν → σ) (n : Nat)
    (sched : List Nat) :
    (sched.foldl (co_perfmon_visit_step vars (vars.map begin) n)
        { i := fun _ => 0, finished := fun _ => false, notified := 0,
          calls := vars.map perfmon_call.begin_stats }).reflects vars begin n
      (fun c => sched.count c) := by
  induction sched using List.reverseRecOn with
  | nil =>
    refine ⟨fun c _ => ?_, fun c _ => ?_, ?_, [], ?_, fun c _ => ?_, fun e he => ?_⟩
    · simp
    · simp
    · simp
    · simp
    · simp
    · exact absurd he (List.not_mem_nil e)
  | append_singleton l a ih =>
    rw [List.foldl_append, List.foldl_cons, List.foldl_nil]
    have hcnt : (fun c => (l ++ [a]).count c)
        = Function.update (fun c => l.count c) a (l.count a + 1) := by
      funext c
      by_cases hc : c = a
      · subst hc
        simp
      · have hne : ¬ a = c := fun h => hc h.symm
        simp [Function.update_noteq hc, List.count_singleton, hne]
    rw [hcnt]
    exact visit_step_reflects vars begin n _ _ a ih

/-- C11: for a registry list `vars` that does not change during the call and `n`
contexts, `perfmon_get_stats` returns exactly when every coroutine is given enough steps
to finish, and the calls it has then made are: `begin_stats` exactly once on each variable
in list order; then visits that, on each context `c` of `[0, n)`, are `visit_stats` exactly
once on each variable, in list order, with the state that the variable's own `begin_stats`
returned; then `end_stats` exactly once on each variable in list order with that same
state. No `end_stats` call comes before the last `visit_stats` call. -/
theorem perfmon_get_stats_call_order {ν σ : Type} (vars : List ν) (begin : ν → σ) (n : Nat)
    (sched : List Nat) :
    ((∃ trace, perfmon_get_stats_calls vars begin n sched = some trace)
        ↔ ∀ c, c < n → vars.length < sched.count c)
      ∧ ∀ trace, perfmon_get_stats_calls vars begin n sched = some trace →
          ∃ visits,
            trace = vars.map perfmon_call.begin_stats ++ visits
                ++ vars.map (fun p => perfmon_call.end_stats p (some (begin p)))
              ∧ (∀ c, c < n → visits.filter (perfmon_call.on_thread c)
                  = vars.map (fun p => perfmon_call.visit_stats p (some (begin p)) c))
              ∧ (∀ e, e ∈ visits →
                  ∃ p c, c < n ∧ e = perfmon_call.visit_stats p (some (begin p)) c) := by
  obtain ⟨hi, _, hn, visits, hcalls, hfilter, hshape⟩ := visit_run_reflects vars begin n sched
  have hdone : (sched.foldl (co_perfmon_visit_step vars (vars.map begin) n)
      { i := fun _ => 0, finished := fun _ => false, notified := 0,
        calls := vars.map perfmon_call.begin_stats }).notified = n
      ↔ ∀ c, c < n → vars.length < sched.count c := by
    rw [hn]
    have hcard := Finset.card_filter_eq_iff (s := Finset.range n)
      (p := fun c => vars.length < sched.count c)
    rw [Finset.card_range] at hcard
    rw [hcard]
    simp [Finset.mem_range]
  have hends := end_calls_eq begin [] vars
  simp only [List.nil_append, List.length_nil] at hends
  constructor
  · unfold perfmon_get_stats_calls
    simp only []
    constructor
    · rintro ⟨trace, htrace⟩
      by_contra hcon
      rw [if_neg (fun h => hcon (hdone.mp h))] at htrace
      exact Option.noConfusion htrace
    · intro hall
      rw [if_pos (hdone.mpr hall)]
      exact ⟨_, rfl⟩
  · intro trace htrace
    unfold perfmon_get_stats_calls at htrace
    simp only [] at htrace
    by_cases hfin : (sched.foldl (co_perfmon_visit_step vars (vars.map begin) n)
        { i := fun _ => 0, finished := fun _ => false, notified := 0,
          calls := vars.map perfmon_call.begin_stats }).notified = n
    · rw [if_pos hfin, hcalls, hends] at htrace
      refine ⟨visits, (Option.some.inj htrace).symm, fun c hc => ?_, hshape⟩
      rw [hfilter c hc, hi c hc, min_eq_right (le_of_lt (hdone.mp hfin c hc)), List.take_length]
    · rw [if_neg hfin] at htrace
      exact Option.noConfusion htrace

/-- C11 (witness): two variables, 2 contexts, and the steps taken in the order
1, 0, 0, 1, 1, 0: the visits of the two contexts interleave, each context visits the first
variable and then the second, and the two `end_stats` calls come last. -/
theorem perfmon_get_stats_call_order_witness :
    (∀ c, c < 2 → ["requests", "lat"].length < [1, 0, 0, 1, 1, 0].count c)
      ∧ (∃ trace, perfmon_get_stats_calls ["requests", "lat"] String.length 2
          [1, 0, 0, 1, 1, 0] = some trace)
      ∧ perfmon_get_stats_calls ["requests", "lat"] String.length 2 [1, 0, 0, 1, 1, 0]
        = some [perfmon_call.begin_stats "requests", perfmon_call.begin_stats "lat",
            perfmon_call.visit_stats "requests" (some 8) 1,
            perfmon_call.visit_stats "requests" (some 8) 0,
            perfmon_call.visit_stats "lat" (some 3) 0,
            perfmon_call.visit_stats "lat" (some 3) 1,
            perfmon_call.end_stats "requests" (some 8),
            perfmon_call.end_stats "lat" (some 3)]
      ∧ perfmon_get_stats_calls ["requests", "lat"] String.length 2 [1, 0, 0, 1, 1] = none := by
  have h := perfmon_get_stats_call_order ["requests", "lat"] String.length 2 [1, 0, 0, 1, 1, 0]
  have hsched : ∀ c, c < 2 → ["requests", "lat"].length < [1, 0, 0, 1, 1, 0].count c := by
    intro c hc
    interval_cases c <;> decide
  exact ⟨hsched, h.1.mpr hsched, rfl, rfl⟩

end Perfmon
